import Mathlib

/-!
# Verification of the team-splitter core

Shallow embedding of the team-splitter repository
(`src/team_splitter/{roster,metrics,role_balancer,team_splitter}.py`)
and proofs about the claims over it.

Conventions of the embedding:
* Python `int` skills are modelled as `Nat` (the spec fixes skills to be
  non-negative integers); absolute differences go through `Int.natAbs`.
* A Python `random.Random` generator owned by the splitter is modelled as an
  abstract stream of shuffles `Rng := Nat → List Nat → List Nat`: the `n`-th
  call of `random.shuffle` on a list `l` yields `g n l`.  What `random.shuffle`
  guarantees — that the result is a permutation of the input — is the
  predicate `RngOk`.
* Mutation of the shared `Team` objects is modelled by explicit state passing
  over the list of teams; `list.remove(x)` is `List.erase` (first occurrence),
  `list.append(x)` is `· ++ [x]`.
* `for x in lst:` loops over a list that the loop body mutates are modelled
  index-by-index, exactly as CPython's list iterator behaves; the loop bodies
  of the swap search preserve list lengths, so the iteration count is the
  length of the list at loop entry.
-/

namespace TeamSplitter

/-- `Role` from `roster.py`. Declaration order (G, D, M, S) matters because
Python iterates `for role in Role` in declaration order. -/
inductive Role where
  | goalie
  | defender
  | midfielder
  | striker
deriving DecidableEq, Repr

/-- The list `[r for r in Role]` in Python's enumeration order. -/
def roleList : List Role := [Role.goalie, Role.defender, Role.midfielder, Role.striker]

/-- `Player` from `roster.py`: frozen dataclass, equality by value. -/
structure Player where
  name : String
  role : Role
  skill : Nat
deriving DecidableEq, Repr

/-- `Team` from `roster.py`: a name label and the ordered list of players.
The owned `random.Random` member is only used by `get_finalized`, which is
outside the split pipeline, so it is not part of the state. -/
structure Team where
  name : String
  players : List Player
deriving DecidableEq, Repr

instance : Inhabited Team := ⟨⟨"", []⟩⟩

/-- Modelled from the spec: `Team` "exposes total skill (sum of member
skills)".  `Team.total_skill` is called throughout `team_splitter.py` and
`metrics.py` but its body is not in `src/roster.py` (which only has the
identical `Team.skill`). -/
def Team.total_skill (t : Team) : Nat := (t.players.map Player.skill).sum

/-- `Team.size` from `roster.py`: member count. -/
def Team.size (t : Team) : Nat := t.players.length

/-- `Team.role_count` from `roster.py`: `sum(p.role == role for p in players)`. -/
def Team.role_count (t : Team) (r : Role) : Nat :=
  (t.players.filter (fun p => p.role = r)).length

/-- `Team.add_player` from `roster.py`: append to the member list.  The
Python `assert player not in players` holds on all states reached under the
`Wf` hypothesis used by the theorems. -/
def addPlayer (l : List Player) (p : Player) : List Player := l ++ [p]

/-- Modelled from the spec: `Team.remove_player`, called by the balancer's
swap code but absent from `src/roster.py`; removing a member is Python's
`list.remove`, which deletes the first occurrence. -/
def removePlayer (l : List Player) (p : Player) : List Player := l.erase p

/-- All players of a team set, in team order (`for team in teams for p in
team.players`). -/
def allP (ts : List Team) : List Player := (ts.map Team.players).flatten

/-- The team at index `i` (Python `teams[i]`); out-of-range accesses never
happen on the executions the theorems quantify over. -/
def teamAt (ts : List Team) (i : Nat) : Team := (ts.get? i).getD default

/-- Replace team `i`'s player list by `f` of it, in place (the Python code
mutates the `Team` object stored at position `i`). -/
def updAt : List Team → Nat → (List Player → List Player) → List Team
  | [], _, _ => []
  | t :: ts, 0, f => { t with players := f t.players } :: ts
  | t :: ts, n + 1, f => t :: updAt ts n f

/-- Abstract stream of `random.shuffle` results: call number ↦ input list ↦
shuffled list. -/
abbrev Rng := Nat → List Nat → List Nat

/-- The contract of `random.shuffle`: the output is a permutation of the
input. -/
def RngOk (g : Rng) : Prop := ∀ n l, (g n l).Perm l

/-- `TeamSplitter.__generate_pick_order`, inner loop.  `cnt` counts shuffle
calls made so far, `useSnake` is the alternation flag (starts `false`), and
`last` is `orders[-1]`. -/
def genOrders (g : Rng) (numTeams : Nat) : Nat → Nat → Bool → List Nat → List (List Nat)
  | 0, _, _, _ => []
  | r + 1, cnt, useSnake, last =>
    if useSnake then
      let current := last.reverse
      current :: genOrders g numTeams r cnt false current
    else
      let current := g cnt (List.range numTeams)
      current :: genOrders g numTeams r (cnt + 1) true current

/-- `TeamSplitter.__generate_pick_order(num_teams, num_rounds)`. -/
def generatePickOrder (g : Rng) (numTeams numRounds : Nat) : List (List Nat) :=
  genOrders g numTeams numRounds 0 false []

/-! ## Metrics (`metrics.py`) -/

/-- `abs(a - b)` for the two `Nat`-valued quantities the metrics compare. -/
def natDelta (a b : Nat) : Nat := ((a : Int) - (b : Int)).natAbs

/-- The unordered index pairs `(i, j)`, `i < j < n`, in the enumeration order
of `Metrics.__compute_pairwise` (outer index ascending, inner loop over
`teams[idx+1:]`): `teams[i+1:]` of `range n` is exactly the `j > i` filter of
`range n`. -/
def pairsUpTo (n : Nat) : List (Nat × Nat) :=
  (List.range n).flatMap fun i =>
    ((List.range n).filter fun j => decide (i < j)).map fun j => (i, j)

/-- The pairwise skill-delta table `Metrics.__pairwise_skill`, keyed by team
index pair (the Python dict is keyed by the team objects' identities, which
the positions in the team list model). -/
def pairwiseSkillTbl (ts : List Team) : List ((Nat × Nat) × Nat) :=
  (pairsUpTo ts.length).map fun ij =>
    (ij, natDelta (teamAt ts ij.1).total_skill (teamAt ts ij.2).total_skill)

/-- Per-pair role deltas `Metrics.__pairwise_role`: for one pair, the dict
`{role: abs(c1 - c2)}` in `Role` declaration order. -/
def roleDeltasOf (ts : List Team) (ij : Nat × Nat) : List (Role × Nat) :=
  roleList.map fun r =>
    (r, natDelta ((teamAt ts ij.1).role_count r) ((teamAt ts ij.2).role_count r))

/-- The pairwise role-delta table `Metrics.__pairwise_role`. -/
def pairwiseRoleTbl (ts : List Team) : List ((Nat × Nat) × List (Role × Nat)) :=
  (pairsUpTo ts.length).map fun ij => (ij, roleDeltasOf ts ij)

/-- The fold computing `Metrics._max_skill_delta`: start at `-1`, replace on
strict improvement. -/
def foldMaxInt (l : List Nat) : Int :=
  l.foldl (fun (acc : Int) (v : Nat) => if (v : Int) > acc then (v : Int) else acc) (-1)

/-- The fold computing `Metrics.defender_diff` / `striker_diff`: start at `0`,
replace on strict improvement. -/
def foldMaxNat (l : List Nat) : Nat :=
  l.foldl (fun acc v => if v > acc then v else acc) 0

/-- The values of the pairwise skill table, in dict iteration order. -/
def skillDeltaVals (ts : List Team) : List Nat := (pairwiseSkillTbl ts).map (·.2)

/-- The per-pair deltas of one role, in dict iteration order (`deltas.get(role, 0)`
with the role always present). -/
def roleDeltaVals (ts : List Team) (r : Role) : List Nat :=
  (pairwiseRoleTbl ts).map fun e => ((e.2.lookup r).getD 0)

/-- `Metrics.skill_diff` ( = `_max_skill_delta`) as a function of the team
set. -/
def skillDiffFold (ts : List Team) : Int := foldMaxInt (skillDeltaVals ts)

/-- `Metrics.defender_diff` / `Metrics.striker_diff` as a function of the team
set. -/
def roleDiffFold (ts : List Team) (r : Role) : Nat := foldMaxNat (roleDeltaVals ts r)

/-- The fold of `Metrics.__init__` locating the maximal role delta: scans the
pair table in insertion order and every pair's role dict in `Role` order,
recording value, role and pair on strict improvement. -/
def maxRoleScan (ts : List Team) : Int × Option Role × (Nat × Nat) :=
  (pairwiseRoleTbl ts).foldl
    (fun acc e =>
      e.2.foldl
        (fun acc rd =>
          if (rd.2 : Int) > acc.1 then ((rd.2 : Int), some rd.1, e.1) else acc)
        acc)
    (-1, none, (0, 0))

/-- `Metrics.__compute_min_player_skill`: `min` over all member skills;
Python's `min` raises on an empty generator, which `mkMetrics` models by
returning `none`. -/
def minPlayerSkill (ps : List Player) : Nat :=
  match ps with
  | [] => 0
  | p :: rest => rest.foldl (fun a q => Nat.min a q.skill) p.skill

/-- Round half to even, on the exact rational `n / d` (`d > 0`).  Models
Python's `round(role_total / team_count)`; the Python expression goes through
a binary float, which is exact for the team counts (2 and 4) the program
uses. -/
def roundHalfEven (n d : Nat) : Nat :=
  let q := n / d
  let r := n % d
  if 2 * r < d then q
  else if d < 2 * r then q + 1
  else if q % 2 = 0 then q else q + 1

/-- `Metrics.__compute_target_for_role`. -/
def targetForRole (ts : List Team) (r : Role) : Nat :=
  if ts.length = 0 then 0
  else roundHalfEven ((ts.map fun t => t.role_count r).sum) ts.length

/-- The `Metrics` snapshot: the fields `Metrics.__init__` computes. -/
structure Metrics where
  pairwise_skill : List ((Nat × Nat) × Nat)
  pairwise_role : List ((Nat × Nat) × List (Role × Nat))
  max_skill_delta : Int
  teams_for_max_skill : Nat × Nat
  max_role_delta : Int
  role_for_max_delta : Option Role
  teams_for_max_role : Nat × Nat
  min_player_skill : Nat
  role_target : List (Role × Nat)
deriving Repr

/-- The fold of `Metrics.__init__` locating the maximal skill delta (value and
pair). -/
def maxSkillScan (ts : List Team) : Int × (Nat × Nat) :=
  (pairwiseSkillTbl ts).foldl
    (fun acc e => if (e.2 : Int) > acc.1 then ((e.2 : Int), e.1) else acc)
    (-1, (0, 0))

/-- `Metrics.__init__(teams)`.  Returns `none` exactly when the Python
constructor raises: `teams[0]` on an empty team list, or `min()` over zero
players. -/
def mkMetrics (ts : List Team) : Option Metrics :=
  if ts.isEmpty then none
  else if (allP ts).isEmpty then none
  else
    let sk := maxSkillScan ts
    let rl := maxRoleScan ts
    some
      { pairwise_skill := pairwiseSkillTbl ts
        pairwise_role := pairwiseRoleTbl ts
        max_skill_delta := sk.1
        teams_for_max_skill := sk.2
        max_role_delta := rl.1
        role_for_max_delta := rl.2.1
        teams_for_max_role := rl.2.2
        min_player_skill := minPlayerSkill (allP ts)
        role_target := roleList.map fun r => (r, targetForRole ts r) }

/-- `Metrics.skill_diff` of a built snapshot. -/
def Metrics.skill_diff (m : Metrics) : Int := m.max_skill_delta

/-- `Metrics.defender_diff` of a built snapshot: fold over the stored pair
table. -/
def Metrics.defender_diff (m : Metrics) : Nat :=
  foldMaxNat (m.pairwise_role.map fun e => (e.2.lookup Role.defender).getD 0)

/-- `Metrics.striker_diff` of a built snapshot. -/
def Metrics.striker_diff (m : Metrics) : Nat :=
  foldMaxNat (m.pairwise_role.map fun e => (e.2.lookup Role.striker).getD 0)

/-! ## Role balancer (`role_balancer.py`) -/

/-- `RoleBalancer.MAX_ITER`. -/
def MAX_ITER : Nat := 100

/-- `RoleBalancer.__calculate_score` of a built snapshot:
`skill_diff + max(0, def_diff - 1) * 15 + max(0, striker_diff - 1) * 10`.
The Python value is a float, but it is integer-valued (an `int` plus integer
penalties), modelled exactly as `Int`. -/
def calculateScore (m : Metrics) : Int :=
  m.skill_diff * 1 + max 0 ((m.defender_diff : Int) - 1) * 15
    + max 0 ((m.striker_diff : Int) - 1) * 10

/-- The score of a team set: `__calculate_score(Metrics(teams))`, as a total
function of the three diffs (the remaining `Metrics` fields do not feed the
score; the theorems only quantify over states on which the Python
construction succeeds). -/
def calcScore (ts : List Team) : Int :=
  skillDiffFold ts * 1 + max 0 ((roleDiffFold ts Role.defender : Int) - 1) * 15
    + max 0 ((roleDiffFold ts Role.striker : Int) - 1) * 10

/-- The goalie filter of `__find_best_global_swap`:
`(p1.role == GOALIE) != (p2.role == GOALIE)`. -/
def goalieMismatch (p q : Player) : Bool :=
  (p.role == Role.goalie) != (q.role == Role.goalie)

/-- A candidate swap as returned by `__find_best_global_swap`: the two team
positions and the two players. -/
abbrev Swap := Nat × Nat × Player × Player

/-- The simulate/apply sequence of `role_balancer.py`:
`t1.remove_player(p1); t2.add_player(p1); t2.remove_player(p2);
t1.add_player(p2)` on the teams at positions `i` and `j`. -/
def applySwap (ts : List Team) (i j : Nat) (p1 p2 : Player) : List Team :=
  updAt (updAt (updAt (updAt ts i (fun l => removePlayer l p1))
      j (fun l => addPlayer l p1))
    j (fun l => removePlayer l p2))
  i (fun l => addPlayer l p2)

/-- The revert sequence is the simulate sequence with the players exchanged:
`t1.remove_player(p2); t2.add_player(p2); t2.remove_player(p1);
t1.add_player(p1)`. -/
def revertSwap (ts : List Team) (i j : Nat) (p1 p2 : Player) : List Team :=
  applySwap ts i j p2 p1

/-- Inner loop `for p2 in t2.players:` of `__find_best_global_swap`.  The body
mutates the live lists (CPython's list iterator walks by index, and every
simulated swap moves `p1` and `p2` to the tails of their lists), so the loop
is modelled index-by-index; the bodies preserve list lengths, so the fuel is
the length of `t2.players` at loop entry. -/
def innerLoop (i j : Nat) (p1 : Player) :
    Nat → Nat → List Team → Option Swap → Int → List Team × Option Swap × Int
  | 0, _, ts, best, bs => (ts, best, bs)
  | fuel + 1, k, ts, best, bs =>
    match (teamAt ts j).players.get? k with
    | none => (ts, best, bs)
    | some p2 =>
      if goalieMismatch p1 p2 then innerLoop i j p1 fuel (k + 1) ts best bs
      else
        let sim := applySwap ts i j p1 p2
        let s := calcScore sim
        let acc := if s < bs then (some (i, j, p1, p2), s) else (best, bs)
        innerLoop i j p1 fuel (k + 1) (revertSwap sim i j p1 p2) acc.1 acc.2

/-- Outer loop `for p1 in t1.players:` of `__find_best_global_swap`, again
index-by-index over the live list. -/
def outerLoop (i j : Nat) :
    Nat → Nat → List Team → Option Swap → Int → List Team × Option Swap × Int
  | 0, _, ts, best, bs => (ts, best, bs)
  | fuel + 1, k, ts, best, bs =>
    match (teamAt ts i).players.get? k with
    | none => (ts, best, bs)
    | some p1 =>
      let r := innerLoop i j p1 ((teamAt ts j).players.length) 0 ts best bs
      outerLoop i j fuel (k + 1) r.1 r.2.1 r.2.2

/-- Loop `for j in range(i + 1, len(teams)):`; the team list's length never
changes, so the fuel is the exact iteration count. -/
def pairLoopJ (i : Nat) :
    Nat → Nat → List Team → Option Swap → Int → List Team × Option Swap × Int
  | 0, _, ts, best, bs => (ts, best, bs)
  | fuel + 1, j, ts, best, bs =>
    let r := outerLoop i j ((teamAt ts i).players.length) 0 ts best bs
    pairLoopJ i fuel (j + 1) r.1 r.2.1 r.2.2

/-- Loop `for i, t1 in enumerate(teams):`. -/
def pairLoopI :
    Nat → Nat → List Team → Option Swap → Int → List Team × Option Swap × Int
  | 0, _, ts, best, bs => (ts, best, bs)
  | fuel + 1, i, ts, best, bs =>
    let r := pairLoopJ i (ts.length - (i + 1)) (i + 1) ts best bs
    pairLoopI fuel (i + 1) r.1 r.2.1 r.2.2

/-- `RoleBalancer.__find_best_global_swap(current_score)`.  Returns the team
state after the enumeration (the shared lists end up reordered) together with
the best swap found and its score. -/
def findBestGlobalSwap (ts : List Team) (currentScore : Int) :
    List Team × Option Swap × Int :=
  pairLoopI ts.length 0 ts none currentScore

/-- One iteration of `RoleBalancer.balance`: compute the score, search, and
apply the best swap if one was found.  The boolean records whether a swap was
applied (`best_swap` truthy). -/
def balanceIterFn (ts : List Team) : List Team × Bool :=
  let s := calcScore ts
  let r := findBestGlobalSwap ts s
  match r.2.1 with
  | none => (r.1, false)
  | some (i, j, p1, p2) => (applySwap r.1 i j p1 p2, true)

/-- The `for iteration in range(MAX_ITER)` loop of `RoleBalancer.balance`:
run one iteration; continue while a swap was applied and fuel remains. -/
def balanceGo : Nat → List Team → List Team
  | 0, ts => ts
  | fuel + 1, ts =>
    let r := balanceIterFn ts
    if r.2 then balanceGo fuel r.1 else r.1

/-- `RoleBalancer.balance()`. -/
def balance (ts : List Team) : List Team := balanceGo MAX_ITER ts

/-- The state transformer of one balance iteration (used to talk about the
trajectory of the loop). -/
def balanceStep (ts : List Team) : List Team := (balanceIterFn ts).1

/-- How many loop bodies `balanceGo fuel` executes. -/
def balanceIters : Nat → List Team → Nat
  | 0, _ => 0
  | fuel + 1, ts =>
    let r := balanceIterFn ts
    if r.2 then balanceIters fuel r.1 + 1 else 1

/-- The states the Python `balance` loop can run on without tripping an
assertion or exception: a nonempty team list, at least one player (for
`Metrics`'s `min`), and globally duplicate-free players (the roster grants
unique names; `add_player` asserts non-membership). -/
def Wf (ts : List Team) : Prop :=
  ts ≠ [] ∧ allP ts ≠ [] ∧ (allP ts).Nodup

instance : DecidablePred Wf := fun ts => by unfold Wf; infer_instance

/-! ## Initial distributor (`team_splitter.py`) -/

/-- Stable insertion of `x` into `l` under the comparator `le`: `x` goes in
front of the first element it compares `le` to. -/
def insStable (le : α → α → Bool) (x : α) : List α → List α
  | [] => [x]
  | y :: ys => if le x y then x :: y :: ys else y :: insStable le x ys

/-- Stable sort under `le` (insertion sort).  Python's `sorted` is a stable
sort; for a total preorder the stable-sorted sequence is unique, so this
models `sorted(..., key=...)` exactly. -/
def stableSortBy (le : α → α → Bool) (l : List α) : List α :=
  l.foldr (insStable le) []

/-- Lexicographic comparison of `(size, skill)` keys. -/
def lexLe (a b : Nat × Nat) : Bool := a.1 < b.1 || (a.1 = b.1 && a.2 ≤ b.2)

/-- `sorted(enumerate(teams), key=lambda t: (t[1].size(), t[1].total_skill()))`
projected to the indices. -/
def goalieSortIdx (ts : List Team) : List Nat :=
  (stableSortBy (fun a b => lexLe (a.2.size, a.2.total_skill) (b.2.size, b.2.total_skill))
    ts.enum).map (·.1)

/-- `sorted(enumerate(teams), key=lambda t: t[1].total_skill())` projected to
the indices (the final-round override). -/
def skillSortIdx (ts : List Team) : List Nat :=
  (stableSortBy (fun a b => a.2.total_skill ≤ b.2.total_skill) ts.enum).map (·.1)

/-- The shared inner assignment loop: `for team_idx in order: if not pool:
break; teams[team_idx].add_player(pool.pop(0))`.  Returns the updated teams
and the remaining pool. -/
def assignSeq : List Nat → List Team → List Player → List Team × List Player
  | [], ts, pool => (ts, pool)
  | idx :: rest, ts, pool =>
    match pool with
    | [] => (ts, [])
    | p :: ps => assignSeq rest (updAt ts idx (fun l => addPlayer l p)) ps

/-- The snake-draft round loop of `__split_into_teams`: for each round,
override the pick order in the final round when fewer players remain than
teams, then run the assignment loop. -/
def snakeRounds (numTeams numRounds : Nat) :
    List (List Nat) → Nat → List Team → List Player → List Team
  | [], _, ts, _ => ts
  | order :: rest, ridx, ts, pool =>
    let order' :=
      if ridx = numRounds - 1 ∧ pool.length < numTeams then skillSortIdx ts else order
    let st := assignSeq order' ts pool
    snakeRounds numTeams numRounds rest (ridx + 1) st.1 st.2

/-- The goalie `while goalies:` loop of `__split_into_teams`: re-sort by
`(size, total_skill)` once per pass, then hand one goalie to each team of the
sorted order until the pool empties.  Each pass with a nonempty team list
consumes at least one goalie, so `goalies.length` passes of fuel make the
model total exactly where the Python loop terminates. -/
def distributeGoalies : Nat → List Team → List Player → List Team
  | _, ts, [] => ts
  | 0, ts, _ => ts
  | fuel + 1, ts, gs =>
    let st := assignSeq (goalieSortIdx ts) ts gs
    distributeGoalies fuel st.1 st.2

/-- `TeamSplitter.TEAM_COLORS`. -/
def TEAM_COLORS : List String := ["Red", "Blue", "White", "Green"]

/-- `TeamSplitter.__split_into_teams(players, num_teams)`. -/
def splitIntoTeams (g : Rng) (players : List Player) (numTeams : Nat) : List Team :=
  let teams : List Team :=
    (List.range numTeams).map fun k => ⟨(TEAM_COLORS.get? k).getD "", []⟩
  let nonGoalies := players.filter fun p => p.role ≠ Role.goalie
  let numRounds := (nonGoalies.length + numTeams - 1) / numTeams
  let orders := generatePickOrder g numTeams numRounds
  let teams1 := snakeRounds numTeams numRounds orders 0 teams nonGoalies
  let goalies := players.filter fun p => p.role = Role.goalie
  distributeGoalies goalies.length teams1 goalies

/-- The name-resolution loop of `TeamSplitter.__validate_players`: each name
must resolve to the first roster player carrying it, else `ValueError`. -/
def lookupNames (roster : List Player) : List String → Except String (List Player)
  | [] => .ok []
  | nm :: rest =>
    match roster.find? (fun p => p.name = nm) with
    | none => .error ("Player '" ++ nm ++ "' not found in roster")
    | some p =>
      match lookupNames roster rest with
      | .ok ps => .ok (p :: ps)
      | .error e => .error e

/-- `TeamSplitter.__validate_players(names)`: resolve every name, then sort
descending by skill (`sorted(..., reverse=True)` is stable). -/
def validatePlayers (roster : List Player) (names : List String) :
    Except String (List Player) :=
  match lookupNames roster names with
  | .error e => .error e
  | .ok validated => .ok (stableSortBy (fun a b => b.skill ≤ a.skill) validated)

/-- `min` of a nonempty list of sizes (Python `min(team_sizes)`). -/
def natListMin : List Nat → Nat
  | [] => 0
  | x :: xs => xs.foldl Nat.min x

/-- `max` of a nonempty list of sizes (Python `max(team_sizes)`). -/
def natListMax : List Nat → Nat
  | [] => 0
  | x :: xs => xs.foldl Nat.max x

/-- `TeamSplitter.__validate_team_size_balance`: raise when the size spread
exceeds one. -/
def validateTeamSizeBalance (ts : List Team) : Except String Unit :=
  if ts = [] then .ok ()
  else
    let sizes := ts.map Team.size
    if natListMax sizes - natListMin sizes > 1 then
      .error "Team size imbalance"
    else .ok ()

/-- `TeamSplitter.MIN_PLAYER_NUMBER_FOR_4_TEAMS`. -/
def MIN_PLAYER_NUMBER_FOR_4_TEAMS : Nat := 24

/-- `TeamSplitter.split_teams`, parametrised by the names read from the input
file (the file I/O itself is collaborator glue).  Validates the names, picks
the team count, distributes, balances, and checks the size-balance
postcondition. -/
def splitTeams (g : Rng) (roster : List Player) (names : List String) :
    Except String (List Team) :=
  match validatePlayers roster names with
  | .error e => .error e
  | .ok players =>
    let numTeams := if MIN_PLAYER_NUMBER_FOR_4_TEAMS ≤ players.length then 4 else 2
    let teams := splitIntoTeams g players numTeams
    let teams := balance teams
    match validateTeamSizeBalance teams with
    | .error e => .error e
    | .ok _ => .ok teams

end TeamSplitter

namespace TeamSplitter

/-- The identity shuffle stream: a legitimate `Rng` (every call returns the
input unchanged), used for concrete witness runs. -/
def idg : Rng := fun _ l => l

/-- Concrete player constructors for witness inputs. -/
def pD (n : String) (s : Nat) : Player := ⟨n, Role.defender, s⟩

def pS (n : String) (s : Nat) : Player := ⟨n, Role.striker, s⟩

def pG (n : String) (s : Nat) : Player := ⟨n, Role.goalie, s⟩

def pM (n : String) (s : Nat) : Player := ⟨n, Role.midfielder, s⟩

/-! ## Relations and claim-side formulations used by the theorems -/

/-- Two team-set states that the Python program cannot tell apart through
the metrics: same length, and teamwise the same name and the same multiset
of players.  The swap search permutes the shared lists in place; this is the
relation its states keep to the loop-entry state. -/
def TeamsRel (ts ts' : List Team) : Prop :=
  List.Forall₂ (fun a b => a.name = b.name ∧ a.players.Perm b.players) ts ts'

/-- The invariant of the accumulator `(best_swap, best_new_score)` of
`__find_best_global_swap` relative to the loop-entry state `ts0` with entry
score `s0`. -/
def InvBest (ts0 : List Team) (s0 : Int) : Option Swap → Int → Prop
  | none, bs => bs = s0
  | some (i, j, p1, p2), bs =>
      i < j ∧ j < ts0.length ∧ goalieMismatch p1 p2 = false ∧
      p1 ∈ (teamAt ts0 i).players ∧ p2 ∈ (teamAt ts0 j).players ∧
      bs = calcScore (applySwap ts0 i j p1 p2) ∧ bs < s0

/-- Claim-side quantity for C4: the maximum absolute total-skill difference
over all unordered team pairs. -/
def specSkillDiff (ts : List Team) : Nat :=
  ((pairsUpTo ts.length).map fun ij =>
    natDelta (teamAt ts ij.1).total_skill (teamAt ts ij.2).total_skill).foldl Nat.max 0

/-- Claim-side quantity for C4: the maximum absolute count difference of one
role over all unordered team pairs. -/
def specRoleDiff (ts : List Team) (r : Role) : Nat :=
  ((pairsUpTo ts.length).map fun ij =>
    natDelta ((teamAt ts ij.1).role_count r) ((teamAt ts ij.2).role_count r)).foldl Nat.max 0

/-- The goalie distribution as claim C7 words it: re-sort ascending by
`(size, total skill)` after every single assignment, one goalie per pass to
the team first in the freshly sorted order. -/
def distributeGoaliesClaimed : Nat → List Team → List Player → List Team
  | _, ts, [] => ts
  | 0, ts, _ => ts
  | fuel + 1, ts, gh :: gt =>
    match goalieSortIdx ts with
    | [] => ts
    | idx :: _ =>
      distributeGoaliesClaimed fuel (updAt ts idx (fun l => addPlayer l gh)) gt

/-- Claim C8 as stated: every odd-numbered round (0-indexed) is a freshly
drawn permutation (some output of the generator on the team indices), every
even-numbered round with a predecessor reverses the immediately preceding
round's order. -/
def claimC8Stated (g : Rng) (numTeams numRounds : Nat) : Prop :=
  ∀ r, r < numRounds →
    (r % 2 = 1 →
      ∃ k, (generatePickOrder g numTeams numRounds).get? r =
        some (g k (List.range numTeams))) ∧
    (r % 2 = 0 → 0 < r →
      (generatePickOrder g numTeams numRounds).get? r =
        ((generatePickOrder g numTeams numRounds).get? (r - 1)).map List.reverse)

/-- Accumulated assignment of pairs (team position, player): what one
assignment pass amounts to. -/
def assignFold (ts : List Team) (l : List (Nat × Player)) : List Team :=
  l.foldl (fun acc e => updAt acc e.1 (fun pl => addPlayer pl e.2)) ts

/-- Per-team goalie counts of a team set. -/
def goalieCounts (ts : List Team) : List Nat :=
  ts.map fun t => t.role_count Role.goalie

/-! ## Concrete witness inputs -/

/-- Witness team set: the defender-imbalance example from the repository's
tests. -/
def tsW : List Team :=
  [⟨"A", [pD "D1" 80, pD "D2" 80, pD "D3" 80, pS "S1" 80]⟩,
   ⟨"B", [pD "D4" 80, pS "S2" 80, pS "S3" 80, pS "S4" 80]⟩]

/-- Witness roster for full `split_teams` runs. -/
def rosterW : List Player :=
  [pG "g1" 9, pD "d1" 8, pD "d2" 7, pM "m1" 6, pS "s1" 5]

/-- Witness selection: all roster names in file order. -/
def namesW : List String := ["g1", "d1", "d2", "m1", "s1"]

/-- The team set the witness `split_teams` run produces (the run succeeds, so
the match is exhaustive on the `.ok` branch). -/
def tsResW : List Team :=
  match splitTeams idg rosterW namesW with
  | .ok ts => ts
  | .error _ => []

/-- Witness players for the validated-selection list of the C2 witness. -/
def playersW : List Player := [pG "g1" 9, pD "d1" 8, pD "d2" 7, pM "m1" 6, pS "s1" 5]

/-! ## Theorems -/

theorem idg_ok : RngOk idg := fun _ _ => List.Perm.refl _

/-- Characterisation of the pick-order generator: starting from the
non-snake state, round `r` is the `(r/2)`-th shuffle when `r` is even and its
reverse when `r` is odd. -/
theorem genOrders_get (g : Rng) (T : Nat) :
    ∀ n cnt last r, r < n →
      (genOrders g T n cnt false last).get? r =
        some (if r % 2 = 0 then g (cnt + r / 2) (List.range T)
              else (g (cnt + r / 2) (List.range T)).reverse) := by
  intro n
  induction n using Nat.strong_induction_on with
  | _ n ih =>
    match n with
    | 0 => exact fun cnt last r hr => absurd hr (Nat.not_lt_zero r)
    | 1 =>
      intro cnt last r hr
      have hr0 : r = 0 := by omega
      subst hr0
      simp [genOrders]
    | m + 2 =>
      intro cnt last r hr
      match r with
      | 0 => simp [genOrders]
      | 1 => simp [genOrders]
      | r + 2 =>
        have step :
            (genOrders g T (m + 2) cnt false last).get? (r + 2) =
              (genOrders g T m (cnt + 1) false
                (g cnt (List.range T)).reverse).get? r := by
          simp [genOrders]
        rw [step, ih m (by omega) (cnt + 1) (g cnt (List.range T)).reverse r (by omega)]
        have hm : (r + 2) % 2 = r % 2 := by omega
        have hd : cnt + 1 + r / 2 = cnt + (r + 2) / 2 := by omega
        rw [hm, hd]

/-- C8, corrected.  In the generated pick-order sequence the EVEN-indexed
rounds (0-indexed) are the freshly drawn shuffles — round `r` uses draw
`r / 2` — and every odd-indexed round is exactly the reverse of the
immediately preceding round's order. -/
theorem claim_C8 (g : Rng) (T R r : Nat) (hr : r < R) :
    (r % 2 = 0 →
      (generatePickOrder g T R).get? r = some (g (r / 2) (List.range T))) ∧
    (r % 2 = 1 →
      (generatePickOrder g T R).get? r =
        ((generatePickOrder g T R).get? (r - 1)).map List.reverse) := by
  constructor
  · intro he
    rw [generatePickOrder, genOrders_get g T R 0 [] r hr]
    simp [he]
  · intro ho
    rw [generatePickOrder, genOrders_get g T R 0 [] r hr,
      genOrders_get g T R 0 [] (r - 1) (by omega)]
    have h1 : (r - 1) % 2 = 0 := by omega
    have h2 : (r - 1) / 2 = r / 2 := by omega
    simp [ho, h1, h2]

theorem claim_C8_witness :
    (0 % 2 = 0 →
      (generatePickOrder idg 2 2).get? 0 = some (idg (0 / 2) (List.range 2))) ∧
    (0 % 2 = 1 →
      (generatePickOrder idg 2 2).get? 0 =
        ((generatePickOrder idg 2 2).get? (0 - 1)).map List.reverse) :=
  claim_C8 idg 2 2 0 (by decide)

/-- C8 as stated is false: with the identity shuffle stream, two teams and
two rounds, round 1 (odd) is `[1, 0]`, which is not any output of the
generator on `[0, 1]` — it is the reverse of round 0, not a fresh draw. -/
theorem claim_C8_counterexample : ¬ claimC8Stated idg 2 2 := by
  intro h
  obtain ⟨k, hk⟩ := (h 1 (by norm_num)).1 rfl
  have h1 : (generatePickOrder idg 2 2).get? 1 = some [1, 0] := rfl
  rw [h1] at hk
  simp only [idg] at hk
  have h2 : ([1, 0] : List Nat) = List.range 2 := by injection hk
  exact absurd h2 (by decide)

/-- C9: determinism.  The whole pipeline is a pure function of the roster,
the selected names (in order) and the seed-derived shuffle stream; two runs
with equal inputs and equal seed produce the same `TeamSet` and the same
pick orders.  (`seedRng` models `random.Random(seed)`: the stream of shuffle
results determined by a seed; no other source of randomness appears in the
embedding, mirroring the code's single `self.__random`.) -/
theorem claim_C9 (seedRng : Nat → Rng) (roster1 roster2 : List Player)
    (names1 names2 : List String) (seed1 seed2 : Nat)
    (hro : roster1 = roster2) (hn : names1 = names2) (hs : seed1 = seed2) :
    splitTeams (seedRng seed1) roster1 names1 =
      splitTeams (seedRng seed2) roster2 names2 ∧
    ∀ T R, generatePickOrder (seedRng seed1) T R =
      generatePickOrder (seedRng seed2) T R := by
  subst hro; subst hn; subst hs
  exact ⟨rfl, fun _ _ => rfl⟩

theorem claim_C9_witness :
    splitTeams idg rosterW namesW = splitTeams idg rosterW namesW ∧
    ∀ T R, generatePickOrder idg T R = generatePickOrder idg T R :=
  claim_C9 (fun _ => idg) rosterW rosterW namesW namesW 42 42 rfl rfl rfl

/-! ### Metrics lemmas -/

theorem mem_pairsUpTo {n i j : Nat} : (i, j) ∈ pairsUpTo n ↔ i < j ∧ j < n := by
  simp only [pairsUpTo, List.mem_flatMap, List.mem_map, List.mem_filter,
    List.mem_range, decide_eq_true_eq]
  constructor
  · rintro ⟨a, _, b, ⟨hb, hab⟩, heq⟩
    injection heq with h1 h2
    subst h1; subst h2
    exact ⟨hab, hb⟩
  · rintro ⟨hij, hj⟩
    exact ⟨i, by omega, j, ⟨hj, hij⟩, rfl⟩

theorem lookup_tab {κ β : Type} [BEq κ] [LawfulBEq κ] (f : κ → β) :
    ∀ (l : List κ) (k : κ), k ∈ l →
      (l.map fun x => (x, f x)).lookup k = some (f k) := by
  intro l
  induction l with
  | nil => intro k hk; cases hk
  | cons a t ih =>
    intro k hk
    rcases List.mem_cons.mp hk with h | h
    · subst h; simp [List.lookup]
    · by_cases hka : k = a
      · subst hka; simp [List.lookup]
      · simp only [List.map_cons, List.lookup]
        rw [show (k == a) = false from beq_eq_false_iff_ne.mpr hka]
        exact ih k h

theorem mem_roleList (r : Role) : r ∈ roleList := by
  cases r <;> simp [roleList]

theorem pairsUpTo_ne_nil {n : Nat} (h : 2 ≤ n) : pairsUpTo n ≠ [] :=
  List.ne_nil_of_mem (mem_pairsUpTo.mpr ⟨Nat.zero_lt_one, by omega⟩)

theorem foldl_max_int_cast :
    ∀ (l : List Nat) (a : Nat),
      l.foldl (fun (acc : Int) (v : Nat) => if (v : Int) > acc then (v : Int) else acc)
          ((a : Nat) : Int) =
        ((l.foldl Nat.max a : Nat) : Int) := by
  intro l
  induction l with
  | nil => intro a; rfl
  | cons x xs ih =>
    intro a
    simp only [List.foldl_cons]
    have hstep :
        (if (x : Int) > ((a : Nat) : Int) then ((x : Nat) : Int) else ((a : Nat) : Int)) =
          ((Nat.max a x : Nat) : Int) := by
      show _ = ((max a x : Nat) : Int)
      rcases Nat.le_total a x with h | h
      · rw [max_eq_right h]; split_ifs <;> omega
      · rw [max_eq_left h]; split_ifs <;> omega
    rw [hstep, ih (Nat.max a x)]

theorem foldMaxInt_cast (l : List Nat) (h : l ≠ []) :
    foldMaxInt l = ((l.foldl Nat.max 0 : Nat) : Int) := by
  match l with
  | x :: xs =>
    unfold foldMaxInt
    simp only [List.foldl_cons]
    rw [if_pos (by omega : ((x : Nat) : Int) > (-1 : Int))]
    rw [show Nat.max 0 x = x from Nat.zero_max x]
    exact foldl_max_int_cast xs x

theorem foldMaxNat_eq (l : List Nat) : foldMaxNat l = l.foldl Nat.max 0 := by
  unfold foldMaxNat
  congr 1
  funext a v
  show _ = max a v
  rcases Nat.le_total a v with h | h
  · rw [max_eq_right h]; split_ifs <;> omega
  · rw [max_eq_left h]; split_ifs <;> omega

theorem scanPair_fst :
    ∀ (l : List ((Nat × Nat) × Nat)) (a : Int) (p : Nat × Nat),
      (l.foldl (fun acc e => if (e.2 : Int) > acc.1 then ((e.2 : Int), e.1) else acc)
          (a, p)).1 =
        (l.map (·.2)).foldl
          (fun (acc : Int) (v : Nat) => if (v : Int) > acc then (v : Int) else acc) a := by
  intro l
  induction l with
  | nil => intros; rfl
  | cons e t ih =>
    intro a p
    simp only [List.foldl_cons, List.map_cons]
    by_cases h : (e.2 : Int) > a
    · rw [if_pos h, if_pos h]
      exact ih _ _
    · rw [if_neg h, if_neg h]
      exact ih _ _

theorem maxSkillScan_fst (ts : List Team) : (maxSkillScan ts).1 = skillDiffFold ts :=
  scanPair_fst (pairwiseSkillTbl ts) (-1) (0, 0)

theorem skillDeltaVals_eq (ts : List Team) :
    skillDeltaVals ts = (pairsUpTo ts.length).map fun ij =>
      natDelta (teamAt ts ij.1).total_skill (teamAt ts ij.2).total_skill := by
  simp only [skillDeltaVals, pairwiseSkillTbl, List.map_map]
  rfl

theorem skillDiffFold_cast (ts : List Team) (h2 : 2 ≤ ts.length) :
    skillDiffFold ts = ((specSkillDiff ts : Nat) : Int) := by
  rw [skillDiffFold, skillDeltaVals_eq]
  rw [foldMaxInt_cast _ (by
    intro hnil
    exact pairsUpTo_ne_nil h2 (List.map_eq_nil_iff.mp hnil))]
  rfl

theorem roleDeltaVals_eq (ts : List Team) (r : Role) :
    roleDeltaVals ts r = (pairsUpTo ts.length).map fun ij =>
      natDelta ((teamAt ts ij.1).role_count r) ((teamAt ts ij.2).role_count r) := by
  simp only [roleDeltaVals, pairwiseRoleTbl, List.map_map]
  apply List.map_congr_left
  intro ij _
  show ((roleDeltasOf ts ij).lookup r).getD 0 = _
  rw [roleDeltasOf, lookup_tab _ roleList r (mem_roleList r)]
  rfl

theorem roleDiffFold_spec (ts : List Team) (r : Role) :
    roleDiffFold ts r = specRoleDiff ts r := by
  rw [roleDiffFold, roleDeltaVals_eq, foldMaxNat_eq]
  rfl

/-- C4: the balancer's aggregate score of a built `Metrics` snapshot is
`skill_diff + max(0, defender_diff - 1) * 15 + max(0, striker_diff - 1) * 10`
with every diff the maximum over all unordered team pairs. -/
theorem claim_C4 (ts : List Team) (h2 : 2 ≤ ts.length) (hp : allP ts ≠ []) :
    (mkMetrics ts).map calculateScore =
      some (((specSkillDiff ts : Nat) : Int)
        + max 0 (((specRoleDiff ts Role.defender : Nat) : Int) - 1) * 15
        + max 0 (((specRoleDiff ts Role.striker : Nat) : Int) - 1) * 10) := by
  have h1 : ts.isEmpty = false := by
    rcases ts with _ | _
    · simp at h2
    · rfl
  have h3 : (allP ts).isEmpty = false := by
    rcases h : allP ts with _ | _
    · exact absurd h hp
    · rfl
  rw [mkMetrics, h1, h3]
  simp only [Bool.false_eq_true, if_false, Option.map_some']
  congr 1
  show (maxSkillScan ts).1 * 1
      + max 0 ((roleDiffFold ts Role.defender : Int) - 1) * 15
      + max 0 ((roleDiffFold ts Role.striker : Int) - 1) * 10 = _
  rw [maxSkillScan_fst, skillDiffFold_cast ts h2, roleDiffFold_spec, roleDiffFold_spec,
    mul_one]

theorem claim_C4_witness :
    2 ≤ tsW.length ∧ allP tsW ≠ [] ∧
    (mkMetrics tsW).map calculateScore =
      some (((specSkillDiff tsW : Nat) : Int)
        + max 0 (((specRoleDiff tsW Role.defender : Nat) : Int) - 1) * 15
        + max 0 (((specRoleDiff tsW Role.striker : Nat) : Int) - 1) * 10) :=
  ⟨by decide, by decide, claim_C4 tsW (by decide) (by decide)⟩

/-- C1: with at least two teams and at least one player the snapshot builds,
and it records, for every unordered pair of team positions, the absolute
total-skill difference and the absolute per-role count difference of every
role. -/
theorem claim_C1 (ts : List Team) (h2 : 2 ≤ ts.length) (hp : allP ts ≠ []) :
    (mkMetrics ts).isSome = true ∧
    ∀ i j, i < j → j < ts.length →
      ((mkMetrics ts).bind fun m => m.pairwise_skill.lookup (i, j)) =
        some (natDelta (teamAt ts i).total_skill (teamAt ts j).total_skill) ∧
      ∀ r : Role,
        ((mkMetrics ts).bind fun m =>
            (m.pairwise_role.lookup (i, j)).bind fun d => d.lookup r) =
          some (natDelta ((teamAt ts i).role_count r) ((teamAt ts j).role_count r)) := by
  have h1 : ts.isEmpty = false := by
    rcases ts with _ | _
    · simp at h2
    · rfl
  have h3 : (allP ts).isEmpty = false := by
    rcases h : allP ts with _ | _
    · exact absurd h hp
    · rfl
  rw [mkMetrics, h1, h3]
  simp only [Bool.false_eq_true, if_false, Option.isSome_some, Option.some_bind]
  refine ⟨trivial, fun i j hij hj => ⟨?_, fun r => ?_⟩⟩
  · exact lookup_tab
      (fun ij => natDelta (teamAt ts ij.1).total_skill (teamAt ts ij.2).total_skill)
      (pairsUpTo ts.length) (i, j) (mem_pairsUpTo.mpr ⟨hij, hj⟩)
  · have h4 := lookup_tab (roleDeltasOf ts) (pairsUpTo ts.length) (i, j)
      (mem_pairsUpTo.mpr ⟨hij, hj⟩)
    show ((pairwiseRoleTbl ts).lookup (i, j)).bind (fun d => d.lookup r) = _
    rw [pairwiseRoleTbl, h4]
    show (roleDeltasOf ts (i, j)).lookup r = _
    exact lookup_tab
      (fun r' => natDelta ((teamAt ts (i, j).1).role_count r')
        ((teamAt ts (i, j).2).role_count r'))
      roleList r (mem_roleList r)

theorem claim_C1_witness :
    2 ≤ tsW.length ∧ allP tsW ≠ [] ∧ (mkMetrics tsW).isSome = true ∧
    ((mkMetrics tsW).bind fun m => m.pairwise_skill.lookup (0, 1)) =
      some (natDelta (teamAt tsW 0).total_skill (teamAt tsW 1).total_skill) ∧
    ((mkMetrics tsW).bind fun m =>
        (m.pairwise_role.lookup (0, 1)).bind fun d => d.lookup Role.defender) =
      some (natDelta ((teamAt tsW 0).role_count Role.defender)
        ((teamAt tsW 1).role_count Role.defender)) := by
  have h := claim_C1 tsW (by decide) (by decide)
  exact ⟨by decide, by decide, h.1, (h.2 0 1 (by decide) (by decide)).1,
    (h.2 0 1 (by decide) (by decide)).2 Role.defender⟩

/-! ### Team-state infrastructure: `updAt`, `teamAt`, permutation invariance -/

theorem updAt_length (ts : List Team) (i : Nat) (f : List Player → List Player) :
    (updAt ts i f).length = ts.length := by
  induction ts generalizing i with
  | nil => rfl
  | cons t rest ih =>
    match i with
    | 0 => rfl
    | n + 1 => simpa [updAt] using ih n

theorem teamAt_cons_succ (t : Team) (ts : List Team) (n : Nat) :
    teamAt (t :: ts) (n + 1) = teamAt ts n := rfl

theorem teamAt_updAt_self {ts : List Team} {i : Nat} (f : List Player → List Player)
    (h : i < ts.length) :
    teamAt (updAt ts i f) i =
      ⟨(teamAt ts i).name, f (teamAt ts i).players⟩ := by
  induction ts generalizing i with
  | nil => simp at h
  | cons t rest ih =>
    match i with
    | 0 => rfl
    | n + 1 =>
      show teamAt (updAt rest n f) n = _
      exact ih (by simpa using h)

theorem teamAt_updAt_ne {ts : List Team} {i m : Nat} (f : List Player → List Player)
    (h : m ≠ i) : teamAt (updAt ts i f) m = teamAt ts m := by
  induction ts generalizing i m with
  | nil => rfl
  | cons t rest ih =>
    match i, m with
    | 0, 0 => exact absurd rfl h
    | 0, _ + 1 => rfl
    | _ + 1, 0 => rfl
    | n + 1, k + 1 =>
      show teamAt (updAt rest n f) k = teamAt rest k
      exact ih (by omega)

theorem updAt_oob {ts : List Team} {i : Nat} (f : List Player → List Player)
    (h : ts.length ≤ i) : updAt ts i f = ts := by
  induction ts generalizing i with
  | nil => rfl
  | cons t rest ih =>
    match i with
    | n + 1 => simpa [updAt] using ih (by simpa using h)

theorem sumSkill_perm {l l' : List Player} (h : l.Perm l') :
    (l.map Player.skill).sum = (l'.map Player.skill).sum :=
  (h.map Player.skill).sum_eq

theorem filterRole_perm {l l' : List Player} (r : Role) (h : l.Perm l') :
    (l.filter fun p => p.role = r).length = (l'.filter fun p => p.role = r).length :=
  (h.filter _).length_eq

theorem teamsRel_refl (ts : List Team) : TeamsRel ts ts := by
  induction ts with
  | nil => exact List.Forall₂.nil
  | cons t rest ih => exact List.Forall₂.cons ⟨rfl, List.Perm.refl _⟩ ih

theorem teamsRel_trans {t1 t2 t3 : List Team} (h12 : TeamsRel t1 t2)
    (h23 : TeamsRel t2 t3) : TeamsRel t1 t3 := by
  induction h12 generalizing t3 with
  | nil => cases h23; exact List.Forall₂.nil
  | cons hab hrest ih =>
    cases h23 with
    | cons hbc hrest2 =>
      exact List.Forall₂.cons ⟨hab.1.trans hbc.1, hab.2.trans hbc.2⟩ (ih hrest2)

theorem teamsRel_length {ts ts' : List Team} (h : TeamsRel ts ts') :
    ts.length = ts'.length := h.length_eq

theorem teamAt_rel {ts ts' : List Team} (h : TeamsRel ts ts') (m : Nat) :
    (teamAt ts m).name = (teamAt ts' m).name ∧
      (teamAt ts m).players.Perm (teamAt ts' m).players := by
  induction h generalizing m with
  | nil => exact ⟨rfl, List.Perm.refl _⟩
  | cons hab hrest ih =>
    match m with
    | 0 => exact hab
    | k + 1 => exact ih k

theorem teamsRel_updAt {ts ts' : List Team} (h : TeamsRel ts ts') (i : Nat)
    (f : List Player → List Player)
    (hf : ∀ l l', l.Perm l' → (f l).Perm (f l')) :
    TeamsRel (updAt ts i f) (updAt ts' i f) := by
  induction h generalizing i with
  | nil => exact List.Forall₂.nil
  | cons hab hrest ih =>
    match i with
    | 0 => exact List.Forall₂.cons ⟨hab.1, hf _ _ hab.2⟩ hrest
    | n + 1 => exact List.Forall₂.cons hab (ih n)

theorem total_skill_rel {ts ts' : List Team} (h : TeamsRel ts ts') (m : Nat) :
    (teamAt ts m).total_skill = (teamAt ts' m).total_skill :=
  sumSkill_perm (teamAt_rel h m).2

theorem role_count_rel {ts ts' : List Team} (h : TeamsRel ts ts') (m : Nat) (r : Role) :
    (teamAt ts m).role_count r = (teamAt ts' m).role_count r :=
  filterRole_perm r (teamAt_rel h m).2

theorem calcScore_rel {ts ts' : List Team} (h : TeamsRel ts ts') :
    calcScore ts = calcScore ts' := by
  have hlen : ts.length = ts'.length := teamsRel_length h
  have hsk : skillDeltaVals ts = skillDeltaVals ts' := by
    rw [skillDeltaVals_eq, skillDeltaVals_eq, hlen]
    exact List.map_congr_left fun ij _ => by
      rw [total_skill_rel h ij.1, total_skill_rel h ij.2]
  have hrl : ∀ r, roleDeltaVals ts r = roleDeltaVals ts' r := by
    intro r
    rw [roleDeltaVals_eq, roleDeltaVals_eq, hlen]
    exact List.map_congr_left fun ij _ => by
      rw [role_count_rel h ij.1 r, role_count_rel h ij.2 r]
  rw [calcScore, calcScore, skillDiffFold, skillDiffFold, hsk,
    roleDiffFold, roleDiffFold, roleDiffFold, roleDiffFold, hrl, hrl]

theorem allP_cons (t : Team) (ts : List Team) : allP (t :: ts) = t.players ++ allP ts := rfl

theorem allP_rel {ts ts' : List Team} (h : TeamsRel ts ts') :
    (allP ts).Perm (allP ts') := by
  induction h with
  | nil => exact List.Perm.refl _
  | cons hab hrest ih =>
    rw [allP_cons, allP_cons]
    exact hab.2.append ih

/-! ### Swap lemmas -/

theorem teamAt_eq_get {ts : List Team} {m : Nat} (h : m < ts.length) :
    teamAt ts m = ts.get ⟨m, h⟩ := by
  rw [teamAt, List.get?_eq_get h]
  rfl

theorem mem_allP {ts : List Team} {m : Nat} {x : Player} (hm : m < ts.length)
    (hx : x ∈ (teamAt ts m).players) : x ∈ allP ts := by
  rw [allP]
  refine List.mem_flatten.mpr ⟨(teamAt ts m).players, ?_, hx⟩
  rw [teamAt_eq_get hm]
  exact List.mem_map_of_mem Team.players (List.get_mem ts m hm)

theorem teams_disjoint {ts : List Team} (hnd : (allP ts).Nodup) {i j : Nat}
    (hij : i < j) (hj : j < ts.length) :
    ∀ x ∈ (teamAt ts i).players, x ∉ (teamAt ts j).players := by
  have hpw := (List.nodup_flatten.mp hnd).2
  have hi : i < ts.length := Nat.lt_trans hij hj
  have hget := List.pairwise_iff_get.mp hpw
    ⟨i, by simpa using hi⟩ ⟨j, by simpa using hj⟩ (by simpa using hij)
  intro x hx
  have h1 : x ∈ (ts.map Team.players).get ⟨i, by simpa using hi⟩ := by
    rw [List.get_map]
    rw [teamAt_eq_get hi] at hx
    exact hx
  intro hx2
  have h2 : x ∈ (ts.map Team.players).get ⟨j, by simpa using hj⟩ := by
    rw [List.get_map]
    rw [teamAt_eq_get hj] at hx2
    exact hx2
  exact hget h1 h2

theorem applySwap_length (ts : List Team) (i j : Nat) (p1 p2 : Player) :
    (applySwap ts i j p1 p2).length = ts.length := by
  rw [applySwap, updAt_length, updAt_length, updAt_length, updAt_length]

theorem applySwap_at_i {ts : List Team} {i j : Nat} (p1 p2 : Player)
    (hij : i ≠ j) (hi : i < ts.length) :
    teamAt (applySwap ts i j p1 p2) i =
      ⟨(teamAt ts i).name, addPlayer (removePlayer (teamAt ts i).players p1) p2⟩ := by
  rw [applySwap]
  rw [teamAt_updAt_self _ (by rw [updAt_length, updAt_length, updAt_length]; exact hi)]
  rw [teamAt_updAt_ne _ hij, teamAt_updAt_ne _ hij,
    teamAt_updAt_self _ hi]

theorem applySwap_at_j {ts : List Team} {i j : Nat} (p1 p2 : Player)
    (hij : i ≠ j) (hj : j < ts.length) :
    teamAt (applySwap ts i j p1 p2) j =
      ⟨(teamAt ts j).name, removePlayer (addPlayer (teamAt ts j).players p1) p2⟩ := by
  rw [applySwap]
  rw [teamAt_updAt_ne _ (Ne.symm hij)]
  rw [teamAt_updAt_self _ (by rw [updAt_length, updAt_length]; exact hj)]
  rw [teamAt_updAt_self _ (by rw [updAt_length]; exact hj)]
  rw [teamAt_updAt_ne _ (Ne.symm hij)]

theorem applySwap_at_other {ts : List Team} {i j m : Nat} (p1 p2 : Player)
    (hmi : m ≠ i) (hmj : m ≠ j) :
    teamAt (applySwap ts i j p1 p2) m = teamAt ts m := by
  rw [applySwap, teamAt_updAt_ne _ hmi, teamAt_updAt_ne _ hmj,
    teamAt_updAt_ne _ hmj, teamAt_updAt_ne _ hmi]

theorem allP_updAt_ms (ts : List Team) (i : Nat) (f : List Player → List Player)
    (hi : i < ts.length) :
    (allP (updAt ts i f) : Multiset Player) + ((teamAt ts i).players : Multiset Player) =
      (allP ts : Multiset Player) + ((f (teamAt ts i).players : List Player) : Multiset Player) := by
  induction ts generalizing i with
  | nil => simp at hi
  | cons t rest ih =>
    match i with
    | 0 =>
      show ((allP (⟨t.name, f t.players⟩ :: rest) : List Player) : Multiset Player) + _ = _
      rw [allP_cons, allP_cons]
      show (↑(f t.players ++ allP rest) : Multiset Player) + ↑t.players =
        (↑(t.players ++ allP rest) : Multiset Player) + ↑(f t.players)
      rw [← Multiset.coe_add, ← Multiset.coe_add]
      abel
    | n + 1 =>
      show ((allP (t :: updAt rest n f) : List Player) : Multiset Player) + _ = _
      rw [allP_cons, allP_cons]
      have hrec := ih n (by simpa using hi)
      show (↑(t.players ++ allP (updAt rest n f)) : Multiset Player) + _ = _
      rw [← Multiset.coe_add, ← Multiset.coe_add]
      have : ((teamAt (t :: rest) (n + 1)).players : Multiset Player) =
        ((teamAt rest n).players : Multiset Player) := rfl
      rw [show teamAt (t :: rest) (n + 1) = teamAt rest n from rfl]
      calc (↑t.players + ↑(allP (updAt rest n f)) : Multiset Player) + ↑(teamAt rest n).players
          = ↑t.players + ((↑(allP (updAt rest n f)) : Multiset Player) + ↑(teamAt rest n).players) := by abel
        _ = ↑t.players + ((↑(allP rest) : Multiset Player) + ↑(f (teamAt rest n).players)) := by rw [hrec]
        _ = (↑t.players + ↑(allP rest) : Multiset Player) + ↑(f (teamAt rest n).players) := by abel

theorem coe_erase_cons {l : List Player} {p : Player} (hp : p ∈ l) :
    (l : Multiset Player) = p ::ₘ ((l.erase p : List Player) : Multiset Player) := by
  have h := Multiset.coe_eq_coe.mpr (List.perm_cons_erase hp)
  rw [← Multiset.cons_coe] at h
  exact h

theorem coe_addPlayer (l : List Player) (p : Player) :
    ((addPlayer l p : List Player) : Multiset Player) = p ::ₘ (l : Multiset Player) := by
  rw [addPlayer]
  have h := Multiset.coe_eq_coe.mpr (List.perm_append_singleton p l)
  rw [← Multiset.cons_coe] at h
  exact h

theorem coe_removePlayer {l : List Player} {p : Player} (hp : p ∈ l) :
    (l : Multiset Player) = p ::ₘ ((removePlayer l p : List Player) : Multiset Player) :=
  coe_erase_cons hp

theorem allP_applySwap_ms {ts : List Team} {i j : Nat} {p1 p2 : Player}
    (hij : i < j) (hj : j < ts.length)
    (hp1 : p1 ∈ (teamAt ts i).players) (hp2 : p2 ∈ (teamAt ts j).players) :
    ((allP (applySwap ts i j p1 p2) : List Player) : Multiset Player) =
      ((allP ts : List Player) : Multiset Player) := by
  have hi : i < ts.length := Nat.lt_trans hij hj
  have hne : i ≠ j := Nat.ne_of_lt hij
  have e1 := allP_updAt_ms ts i (fun l => removePlayer l p1) hi
  set s1 := updAt ts i (fun l => removePlayer l p1) with hs1
  have l1 : s1.length = ts.length := updAt_length ts i _
  have t1j : teamAt s1 j = teamAt ts j := teamAt_updAt_ne _ (Ne.symm hne)
  have t1i : teamAt s1 i = ⟨(teamAt ts i).name, removePlayer (teamAt ts i).players p1⟩ :=
    teamAt_updAt_self _ hi
  have e2 := allP_updAt_ms s1 j (fun l => addPlayer l p1) (by rw [l1]; exact hj)
  set s2 := updAt s1 j (fun l => addPlayer l p1) with hs2
  have l2 : s2.length = ts.length := by rw [updAt_length, l1]
  have t2j : teamAt s2 j =
      ⟨(teamAt ts j).name, addPlayer (teamAt ts j).players p1⟩ := by
    have h := @teamAt_updAt_self s1 j (fun l => addPlayer l p1) (by rw [l1]; exact hj)
    rw [t1j] at h
    exact h
  have t2i : teamAt s2 i = teamAt s1 i := teamAt_updAt_ne _ hne
  have e3 := allP_updAt_ms s2 j (fun l => removePlayer l p2) (by rw [l2]; exact hj)
  set s3 := updAt s2 j (fun l => removePlayer l p2) with hs3
  have l3 : s3.length = ts.length := by rw [updAt_length, l2]
  have t3i : teamAt s3 i = teamAt s2 i := teamAt_updAt_ne _ hne
  have e4 := allP_updAt_ms s3 i (fun l => addPlayer l p2) (by rw [l3]; exact hi)
  rw [t1j] at e2
  rw [t2j] at e3
  rw [t3i, t2i, t1i] at e4
  dsimp only at e1 e2 e3 e4
  have hremadd :
      removePlayer (addPlayer (teamAt ts j).players p1) p2 =
        addPlayer (removePlayer (teamAt ts j).players p2) p1 := by
    rw [removePlayer, removePlayer, addPlayer, addPlayer]
    exact List.erase_append_left [p1] hp2
  rw [coe_addPlayer] at e2
  rw [hremadd, coe_addPlayer, coe_addPlayer] at e3
  rw [coe_addPlayer] at e4
  have hPi := coe_removePlayer hp1
  have hPj := coe_removePlayer hp2
  rw [hPi] at e1
  rw [hPj] at e3
  have hgoal : allP (applySwap ts i j p1 p2) =
      allP (updAt s3 i (fun l => addPlayer l p2)) := rfl
  rw [hgoal]
  -- X2 = X1 + {p1}
  have cA : ((allP s2 : List Player) : Multiset Player) =
      ((allP s1 : List Player) : Multiset Player) + {p1} := by
    have h : ((allP s2 : List Player) : Multiset Player)
          + ((teamAt ts j).players : Multiset Player) =
        (((allP s1 : List Player) : Multiset Player) + {p1})
          + ((teamAt ts j).players : Multiset Player) := by
      rw [e2, ← Multiset.singleton_add]
      abel
    exact add_right_cancel h
  -- X1 + {p1} = X0
  have cB : ((allP s1 : List Player) : Multiset Player) + {p1} =
      ((allP ts : List Player) : Multiset Player) := by
    have h : (((allP s1 : List Player) : Multiset Player) + {p1})
          + ((removePlayer (teamAt ts i).players p1 : List Player) : Multiset Player) =
        ((allP ts : List Player) : Multiset Player)
          + ((removePlayer (teamAt ts i).players p1 : List Player) : Multiset Player) := by
      calc (((allP s1 : List Player) : Multiset Player) + {p1})
            + ((removePlayer (teamAt ts i).players p1 : List Player) : Multiset Player)
          = ((allP s1 : List Player) : Multiset Player)
            + (p1 ::ₘ ((removePlayer (teamAt ts i).players p1 : List Player) : Multiset Player)) := by
            rw [← Multiset.singleton_add]
            abel
        _ = ((allP ts : List Player) : Multiset Player)
            + ((removePlayer (teamAt ts i).players p1 : List Player) : Multiset Player) := e1
    exact add_right_cancel h
  -- X3 + {p2} = X2
  have cC : ((allP s3 : List Player) : Multiset Player) + {p2} =
      ((allP s2 : List Player) : Multiset Player) := by
    have h : (((allP s3 : List Player) : Multiset Player) + {p2})
          + (p1 ::ₘ ((removePlayer (teamAt ts j).players p2 : List Player) : Multiset Player)) =
        ((allP s2 : List Player) : Multiset Player)
          + (p1 ::ₘ ((removePlayer (teamAt ts j).players p2 : List Player) : Multiset Player)) := by
      calc (((allP s3 : List Player) : Multiset Player) + {p2})
            + (p1 ::ₘ ((removePlayer (teamAt ts j).players p2 : List Player) : Multiset Player))
          = ((allP s3 : List Player) : Multiset Player)
            + (p1 ::ₘ p2 ::ₘ ((removePlayer (teamAt ts j).players p2 : List Player) : Multiset Player)) := by
            rw [← Multiset.singleton_add, ← Multiset.singleton_add, ← Multiset.singleton_add]
            abel
        _ = ((allP s2 : List Player) : Multiset Player)
            + (p1 ::ₘ ((removePlayer (teamAt ts j).players p2 : List Player) : Multiset Player)) := e3
    exact add_right_cancel h
  -- X4 = X3 + {p2}
  have cD : ((allP (updAt s3 i (fun l => addPlayer l p2)) : List Player) : Multiset Player) =
      ((allP s3 : List Player) : Multiset Player) + {p2} := by
    have h : ((allP (updAt s3 i (fun l => addPlayer l p2)) : List Player) : Multiset Player)
          + ((removePlayer (teamAt ts i).players p1 : List Player) : Multiset Player) =
        (((allP s3 : List Player) : Multiset Player) + {p2})
          + ((removePlayer (teamAt ts i).players p1 : List Player) : Multiset Player) := by
      rw [e4, ← Multiset.singleton_add]
      abel
    exact add_right_cancel h
  rw [cD, cC, cA, cB]

theorem removeAdd_comm {l : List Player} {p q : Player} (hq : q ∈ l) :
    removePlayer (addPlayer l p) q = addPlayer (removePlayer l q) p := by
  rw [removePlayer, removePlayer, addPlayer, addPlayer]
  exact List.erase_append_left [p] hq

theorem teamsRel_of_teamAt :
    ∀ {ts ts' : List Team}, ts.length = ts'.length →
      (∀ m, m < ts.length →
        (teamAt ts m).name = (teamAt ts' m).name ∧
          (teamAt ts m).players.Perm (teamAt ts' m).players) →
      TeamsRel ts ts' := by
  intro ts
  induction ts with
  | nil =>
    intro ts' hlen _
    match ts' with
    | [] => exact List.Forall₂.nil
  | cons t rest ih =>
    intro ts' hlen h
    match ts' with
    | t' :: rest' =>
      refine List.Forall₂.cons ?_ (ih (by simpa using hlen) fun m hm => h (m + 1) (by simpa using hm))
      exact h 0 (by simp)

theorem applySwap_rel {ts ts' : List Team} (h : TeamsRel ts ts') (i j : Nat)
    (p1 p2 : Player) :
    TeamsRel (applySwap ts i j p1 p2) (applySwap ts' i j p1 p2) := by
  rw [applySwap, applySwap]
  refine teamsRel_updAt (teamsRel_updAt (teamsRel_updAt (teamsRel_updAt h i _
    fun l l' hp => hp.erase p1) j _ fun l l' hp => hp.append_right [p1]) j _
    fun l l' hp => hp.erase p2) i _ fun l l' hp => hp.append_right [p2]

theorem revert_applySwap_rel {ts : List Team} {i j : Nat} {p1 p2 : Player}
    (hij : i < j) (hj : j < ts.length)
    (hp1 : p1 ∈ (teamAt ts i).players) (hp2 : p2 ∈ (teamAt ts j).players)
    (hnd : (allP ts).Nodup) :
    TeamsRel ts (revertSwap (applySwap ts i j p1 p2) i j p1 p2) := by
  have hi : i < ts.length := Nat.lt_trans hij hj
  have hne : i ≠ j := Nat.ne_of_lt hij
  have hdisj := teams_disjoint hnd hij hj
  have hp2i : p2 ∉ (teamAt ts i).players := fun hmem => hdisj p2 hmem hp2
  have hp1j : p1 ∉ (teamAt ts j).players := fun hmem => hdisj p1 hp1 hmem
  rw [revertSwap]
  set sim := applySwap ts i j p1 p2 with hsim
  have lsim : sim.length = ts.length := applySwap_length ts i j p1 p2
  have simI : teamAt sim i =
      ⟨(teamAt ts i).name, addPlayer (removePlayer (teamAt ts i).players p1) p2⟩ :=
    applySwap_at_i p1 p2 hne hi
  have simJ : teamAt sim j =
      ⟨(teamAt ts j).name, addPlayer (removePlayer (teamAt ts j).players p2) p1⟩ := by
    rw [applySwap_at_j p1 p2 hne hj, removeAdd_comm hp2]
  apply teamsRel_of_teamAt
  · rw [applySwap_length, lsim]
  · intro m hm
    by_cases hmi : m = i
    · subst hmi
      rw [applySwap_at_i p2 p1 hne (by rw [lsim]; exact hi), simI]
      constructor
      · rfl
      · show (teamAt ts m).players.Perm
          (addPlayer (removePlayer (addPlayer (removePlayer (teamAt ts m).players p1) p2) p2) p1)
        have hnotin : p2 ∉ (teamAt ts m).players.erase p1 := by
          intro hmem
          exact hp2i (List.erase_subset _ _ hmem)
        simp only [removePlayer, addPlayer]
        rw [List.erase_append_right _ hnotin, List.erase_cons_head, List.append_nil]
        exact (List.perm_cons_erase hp1).trans
          (List.perm_append_singleton p1 ((teamAt ts m).players.erase p1)).symm
    · by_cases hmj : m = j
      · subst hmj
        rw [applySwap_at_j p2 p1 hne (by rw [lsim]; exact hj), simJ]
        constructor
        · rfl
        · show (teamAt ts m).players.Perm
            (removePlayer (addPlayer (addPlayer (removePlayer (teamAt ts m).players p2) p1) p2) p1)
          have hnotin : p1 ∉ (teamAt ts m).players.erase p2 := by
            intro hmem
            exact hp1j (List.erase_subset _ _ hmem)
          simp only [removePlayer, addPlayer]
          rw [List.append_assoc, List.erase_append_right _ hnotin]
          rw [show ([p1] ++ [p2]) = p1 :: [p2] from rfl, List.erase_cons_head]
          exact (List.perm_cons_erase hp2).trans
            (List.perm_append_singleton p2 ((teamAt ts m).players.erase p2)).symm
      · rw [applySwap_at_other p2 p1 hmi hmj, applySwap_at_other p1 p2 hmi hmj]
        exact ⟨rfl, List.Perm.refl _⟩

theorem goalie_count_swap_list {l : List Player} {p q : Player} (hp : p ∈ l)
    (hpar : (p.role == Role.goalie) = (q.role == Role.goalie)) :
    ((addPlayer (removePlayer l p) q).filter fun x => x.role = Role.goalie).length =
      (l.filter fun x => x.role = Role.goalie).length := by
  rw [addPlayer, removePlayer, List.filter_append]
  have hperm := (List.perm_cons_erase hp).filter (fun x => decide (x.role = Role.goalie))
  rw [hperm.length_eq, List.filter_cons]
  by_cases hpg : p.role = Role.goalie
  · have h1 : (q.role == Role.goalie) = true := by
      rw [← hpar]
      exact beq_iff_eq.mpr hpg
    have hqg := beq_iff_eq.mp h1
    simp [hpg, hqg]
  · have h1 : (q.role == Role.goalie) = false := by
      rw [← hpar]
      exact beq_eq_false_iff_ne.mpr hpg
    have hqg := beq_eq_false_iff_ne.mp h1
    simp [hpg, hqg]

theorem goalieMismatch_false_iff {p q : Player} :
    goalieMismatch p q = false ↔ (p.role == Role.goalie) = (q.role == Role.goalie) := by
  rw [goalieMismatch, bne_eq_false_iff_eq]

theorem goalieCounts_applySwap {ts : List Team} {i j : Nat} {p1 p2 : Player}
    (hij : i < j) (hj : j < ts.length)
    (hp1 : p1 ∈ (teamAt ts i).players) (hp2 : p2 ∈ (teamAt ts j).players)
    (hpar : goalieMismatch p1 p2 = false) :
    ∀ m, (teamAt (applySwap ts i j p1 p2) m).role_count Role.goalie =
      (teamAt ts m).role_count Role.goalie := by
  have hi : i < ts.length := Nat.lt_trans hij hj
  have hne : i ≠ j := Nat.ne_of_lt hij
  have hb := goalieMismatch_false_iff.mp hpar
  intro m
  by_cases hmi : m = i
  · subst hmi
    rw [applySwap_at_i p1 p2 hne hi]
    exact goalie_count_swap_list hp1 hb
  · by_cases hmj : m = j
    · subst hmj
      rw [applySwap_at_j p1 p2 hne hj, removeAdd_comm hp2]
      exact goalie_count_swap_list hp2 hb.symm
    · rw [applySwap_at_other p1 p2 hmi hmj]

theorem goalieCounts_eq_of_pointwise :
    ∀ {ts ts' : List Team}, ts'.length = ts.length →
      (∀ m, m < ts.length →
        (teamAt ts' m).role_count Role.goalie = (teamAt ts m).role_count Role.goalie) →
      goalieCounts ts' = goalieCounts ts := by
  intro ts
  induction ts with
  | nil =>
    intro ts' hlen _
    match ts' with
    | [] => rfl
  | cons t rest ih =>
    intro ts' hlen h
    match ts' with
    | t' :: rest' =>
      have h0 : t'.role_count Role.goalie = t.role_count Role.goalie := h 0 (by simp)
      have hrest : goalieCounts rest' = goalieCounts rest :=
        ih (by simpa using hlen) fun m hm => h (m + 1) (by simpa using hm)
      show t'.role_count Role.goalie :: goalieCounts rest' =
        t.role_count Role.goalie :: goalieCounts rest
      rw [h0, hrest]

theorem goalieCounts_rel {ts ts' : List Team} (h : TeamsRel ts' ts) :
    goalieCounts ts' = goalieCounts ts :=
  goalieCounts_eq_of_pointwise (teamsRel_length h) fun m _ =>
    filterRole_perm Role.goalie (teamAt_rel h m).2

theorem invBest_le {ts0 : List Team} {s0 : Int} {best : Option Swap} {bs : Int}
    (h : InvBest ts0 s0 best bs) : bs ≤ s0 := by
  match best with
  | none => exact le_of_eq h
  | some (i, j, p1, p2) => exact le_of_lt h.2.2.2.2.2.2

theorem mem_of_rel_mem {ts0 ts : List Team} (hrel : TeamsRel ts0 ts) {m : Nat}
    {p : Player} (hp : p ∈ (teamAt ts m).players) : p ∈ (teamAt ts0 m).players :=
  ((teamAt_rel hrel m).2.mem_iff).mpr hp

theorem innerLoop_spec (ts0 : List Team) (hnd : (allP ts0).Nodup)
    (i j : Nat) (hij : i < j) (hj : j < ts0.length) (p1 : Player) :
    ∀ fuel k ts best bs,
      TeamsRel ts0 ts → p1 ∈ (teamAt ts i).players →
      InvBest ts0 (calcScore ts0) best bs →
      TeamsRel ts0 (innerLoop i j p1 fuel k ts best bs).1 ∧
      p1 ∈ (teamAt (innerLoop i j p1 fuel k ts best bs).1 i).players ∧
      InvBest ts0 (calcScore ts0) (innerLoop i j p1 fuel k ts best bs).2.1
        (innerLoop i j p1 fuel k ts best bs).2.2 := by
  intro fuel
  induction fuel with
  | zero =>
    intro k ts best bs hrel hp1 hinv
    exact ⟨hrel, hp1, hinv⟩
  | succ n ih =>
    intro k ts best bs hrel hp1 hinv
    have hjts : j < ts.length := by rw [← teamsRel_length hrel]; exact hj
    cases hget : (teamAt ts j).players.get? k with
    | none =>
      simp only [innerLoop, hget]
      exact ⟨hrel, hp1, hinv⟩
    | some p2 =>
      have hp2mem : p2 ∈ (teamAt ts j).players := List.get?_mem hget
      have hndts : (allP ts).Nodup := ((allP_rel hrel).nodup_iff).mp hnd
      by_cases hmm2 : goalieMismatch p1 p2 = true
      · simp only [innerLoop, hget, hmm2, if_true]
        exact ih (k + 1) ts best bs hrel hp1 hinv
      · have hmmf : goalieMismatch p1 p2 = false := by
          simpa using hmm2
        simp only [innerLoop, hget, hmmf, Bool.false_eq_true, if_false]
        have hrevrel : TeamsRel ts (revertSwap (applySwap ts i j p1 p2) i j p1 p2) :=
          revert_applySwap_rel hij hjts hp1 hp2mem hndts
        have hrel' : TeamsRel ts0 (revertSwap (applySwap ts i j p1 p2) i j p1 p2) :=
          teamsRel_trans hrel hrevrel
        have hp1' :
            p1 ∈ (teamAt (revertSwap (applySwap ts i j p1 p2) i j p1 p2) i).players := by
          have h0 : p1 ∈ (teamAt ts0 i).players := mem_of_rel_mem hrel hp1
          exact ((teamAt_rel hrel' i).2.mem_iff).mp h0
        by_cases hs : calcScore (applySwap ts i j p1 p2) < bs
        · rw [if_pos hs]
          refine ih (k + 1) _ _ _ hrel' hp1' ?_
          show InvBest ts0 (calcScore ts0) (some (i, j, p1, p2))
            (calcScore (applySwap ts i j p1 p2))
          have hscore : calcScore (applySwap ts i j p1 p2) =
              calcScore (applySwap ts0 i j p1 p2) :=
            (calcScore_rel (applySwap_rel hrel i j p1 p2)).symm
          refine ⟨hij, hj, hmmf, mem_of_rel_mem hrel hp1, mem_of_rel_mem hrel hp2mem,
            hscore.symm ▸ rfl, lt_of_lt_of_le hs (invBest_le hinv)⟩
        · rw [if_neg hs]
          exact ih (k + 1) _ _ _ hrel' hp1' hinv

theorem outerLoop_spec (ts0 : List Team) (hnd : (allP ts0).Nodup)
    (i j : Nat) (hij : i < j) (hj : j < ts0.length) :
    ∀ fuel k ts best bs,
      TeamsRel ts0 ts → InvBest ts0 (calcScore ts0) best bs →
      TeamsRel ts0 (outerLoop i j fuel k ts best bs).1 ∧
      InvBest ts0 (calcScore ts0) (outerLoop i j fuel k ts best bs).2.1
        (outerLoop i j fuel k ts best bs).2.2 := by
  intro fuel
  induction fuel with
  | zero =>
    intro k ts best bs hrel hinv
    exact ⟨hrel, hinv⟩
  | succ n ih =>
    intro k ts best bs hrel hinv
    cases hget : (teamAt ts i).players.get? k with
    | none =>
      simp only [outerLoop, hget]
      exact ⟨hrel, hinv⟩
    | some p1 =>
      simp only [outerLoop, hget]
      have hp1 : p1 ∈ (teamAt ts i).players := List.get?_mem hget
      have hin := innerLoop_spec ts0 hnd i j hij hj p1
        ((teamAt ts j).players.length) 0 ts best bs hrel hp1 hinv
      exact ih (k + 1) _ _ _ hin.1 hin.2.2

theorem pairLoopJ_spec (ts0 : List Team) (hnd : (allP ts0).Nodup) (i : Nat) :
    ∀ fuel j ts best bs,
      i < j → fuel + j ≤ ts0.length →
      TeamsRel ts0 ts → InvBest ts0 (calcScore ts0) best bs →
      TeamsRel ts0 (pairLoopJ i fuel j ts best bs).1 ∧
      InvBest ts0 (calcScore ts0) (pairLoopJ i fuel j ts best bs).2.1
        (pairLoopJ i fuel j ts best bs).2.2 := by
  intro fuel
  induction fuel with
  | zero =>
    intro j ts best bs _ _ hrel hinv
    exact ⟨hrel, hinv⟩
  | succ n ih =>
    intro j ts best bs hij hle hrel hinv
    simp only [pairLoopJ]
    have hj : j < ts0.length := by omega
    have hout := outerLoop_spec ts0 hnd i j hij hj
      ((teamAt ts i).players.length) 0 ts best bs hrel hinv
    exact ih (j + 1) _ _ _ (by omega) (by omega) hout.1 hout.2

theorem pairLoopI_spec (ts0 : List Team) (hnd : (allP ts0).Nodup) :
    ∀ fuel i ts best bs,
      fuel + i ≤ ts0.length →
      TeamsRel ts0 ts → InvBest ts0 (calcScore ts0) best bs →
      TeamsRel ts0 (pairLoopI fuel i ts best bs).1 ∧
      InvBest ts0 (calcScore ts0) (pairLoopI fuel i ts best bs).2.1
        (pairLoopI fuel i ts best bs).2.2 := by
  intro fuel
  induction fuel with
  | zero =>
    intro i ts best bs _ hrel hinv
    exact ⟨hrel, hinv⟩
  | succ n ih =>
    intro i ts best bs hle hrel hinv
    simp only [pairLoopI]
    have hts : ts.length = ts0.length := (teamsRel_length hrel).symm
    have hpj := pairLoopJ_spec ts0 hnd i (ts.length - (i + 1)) (i + 1) ts best bs
      (by omega) (by omega) hrel hinv
    exact ih (i + 1) _ _ _ (by omega) hpj.1 hpj.2

theorem findBest_spec (ts : List Team) (hnd : (allP ts).Nodup) :
    TeamsRel ts (findBestGlobalSwap ts (calcScore ts)).1 ∧
    InvBest ts (calcScore ts) (findBestGlobalSwap ts (calcScore ts)).2.1
      (findBestGlobalSwap ts (calcScore ts)).2.2 := by
  rw [findBestGlobalSwap]
  exact pairLoopI_spec ts hnd ts.length 0 ts none (calcScore ts) (by omega)
    (teamsRel_refl ts) rfl

theorem teamsRel_symm {ts ts' : List Team} (h : TeamsRel ts ts') : TeamsRel ts' ts := by
  induction h with
  | nil => exact List.Forall₂.nil
  | cons hab hrest ih => exact List.Forall₂.cons ⟨hab.1.symm, hab.2.symm⟩ ih

theorem goalieCounts_applySwap_eq {ts : List Team} {i j : Nat} {p1 p2 : Player}
    (hij : i < j) (hj : j < ts.length)
    (hp1 : p1 ∈ (teamAt ts i).players) (hp2 : p2 ∈ (teamAt ts j).players)
    (hpar : goalieMismatch p1 p2 = false) :
    goalieCounts (applySwap ts i j p1 p2) = goalieCounts ts :=
  goalieCounts_eq_of_pointwise (applySwap_length ts i j p1 p2)
    fun m _ => goalieCounts_applySwap hij hj hp1 hp2 hpar m

/-- The master lemma about one balance iteration on a duplicate-free state:
the global player multiset, the per-team goalie counts and the team count are
preserved; the score never increases; when a swap is applied the score
strictly drops, and the applied swap is a goalie-parity-preserving exchange
of members of two distinct teams that strictly lowers the score. -/
theorem balanceStep_master (ts : List Team) (hnd : (allP ts).Nodup) :
    ((allP (balanceStep ts) : List Player) : Multiset Player) =
      ((allP ts : List Player) : Multiset Player) ∧
    goalieCounts (balanceStep ts) = goalieCounts ts ∧
    (balanceStep ts).length = ts.length ∧
    calcScore (balanceStep ts) ≤ calcScore ts ∧
    ((balanceIterFn ts).2 = true → calcScore (balanceStep ts) < calcScore ts) ∧
    ((balanceIterFn ts).2 = true →
      ∃ i j p1 p2, i < j ∧ j < ts.length ∧ goalieMismatch p1 p2 = false ∧
        p1 ∈ (teamAt ts i).players ∧ p2 ∈ (teamAt ts j).players ∧
        calcScore (applySwap ts i j p1 p2) < calcScore ts) := by
  have hspec := findBest_spec ts hnd
  cases hb : (findBestGlobalSwap ts (calcScore ts)).2.1 with
  | none =>
    have hstep : balanceStep ts = (findBestGlobalSwap ts (calcScore ts)).1 := by
      simp only [balanceStep, balanceIterFn, hb]
    have happ : (balanceIterFn ts).2 = false := by
      simp only [balanceIterFn, hb]
    have hrel := hspec.1
    rw [hstep]
    refine ⟨Multiset.coe_eq_coe.mpr (allP_rel hrel).symm,
      goalieCounts_rel (teamsRel_symm hrel),
      (teamsRel_length hrel).symm,
      le_of_eq (calcScore_rel hrel).symm, ?_, ?_⟩
    · intro h
      rw [happ] at h
      cases h
    · intro h
      rw [happ] at h
      cases h
  | some sw =>
    obtain ⟨i, j, p1, p2⟩ := sw
    have hinv := hspec.2
    rw [hb] at hinv
    obtain ⟨hij, hj, hpar, hp1, hp2, hbs, hlt⟩ := hinv
    have hstep : balanceStep ts =
        applySwap (findBestGlobalSwap ts (calcScore ts)).1 i j p1 p2 := by
      simp only [balanceStep, balanceIterFn, hb]
    have happ : (balanceIterFn ts).2 = true := by
      simp only [balanceIterFn, hb]
    have hrelS : TeamsRel (applySwap ts i j p1 p2)
        (applySwap (findBestGlobalSwap ts (calcScore ts)).1 i j p1 p2) :=
      applySwap_rel hspec.1 i j p1 p2
    have hscore : calcScore (balanceStep ts) = calcScore (applySwap ts i j p1 p2) := by
      rw [hstep]
      exact (calcScore_rel hrelS).symm
    have hltS : calcScore (applySwap ts i j p1 p2) < calcScore ts := hbs ▸ hlt
    refine ⟨?_, ?_, ?_, ?_, fun _ => ?_, fun _ => ⟨i, j, p1, p2, hij, hj, hpar, hp1, hp2, hltS⟩⟩
    · rw [hstep]
      calc ((allP (applySwap (findBestGlobalSwap ts (calcScore ts)).1 i j p1 p2) :
            List Player) : Multiset Player)
          = ((allP (applySwap ts i j p1 p2) : List Player) : Multiset Player) :=
            Multiset.coe_eq_coe.mpr (allP_rel hrelS).symm
        _ = ((allP ts : List Player) : Multiset Player) := allP_applySwap_ms hij hj hp1 hp2
    · rw [hstep]
      calc goalieCounts (applySwap (findBestGlobalSwap ts (calcScore ts)).1 i j p1 p2)
          = goalieCounts (applySwap ts i j p1 p2) := goalieCounts_rel (teamsRel_symm hrelS)
        _ = goalieCounts ts := goalieCounts_applySwap_eq hij hj hp1 hp2 hpar
    · rw [hstep, applySwap_length, ← teamsRel_length hspec.1]
    · rw [hscore]
      exact le_of_lt hltS
    · rw [hscore]
      exact hltS

theorem wf_balanceStep {ts : List Team} (h : Wf ts) : Wf (balanceStep ts) := by
  obtain ⟨hne, hpne, hnd⟩ := h
  have hm := balanceStep_master ts hnd
  have hperm : (allP (balanceStep ts)).Perm (allP ts) := Multiset.coe_eq_coe.mp hm.1
  refine ⟨?_, ?_, hperm.nodup_iff.mpr hnd⟩
  · intro hnil
    apply hne
    have := hm.2.2.1
    rw [hnil] at this
    exact List.eq_nil_of_length_eq_zero this.symm
  · intro hnil
    apply hpne
    have := hperm.length_eq
    rw [hnil] at this
    exact List.eq_nil_of_length_eq_zero this.symm

theorem iterate_master (ts : List Team) (h : Wf ts) :
    ∀ n, Wf (balanceStep^[n] ts) ∧
      ((allP (balanceStep^[n] ts) : List Player) : Multiset Player) =
        ((allP ts : List Player) : Multiset Player) ∧
      goalieCounts (balanceStep^[n] ts) = goalieCounts ts := by
  intro n
  induction n with
  | zero => exact ⟨h, rfl, rfl⟩
  | succ n ih =>
    obtain ⟨hwf, hms, hgc⟩ := ih
    have hm := balanceStep_master (balanceStep^[n] ts) hwf.2.2
    rw [Function.iterate_succ_apply']
    exact ⟨wf_balanceStep hwf, hm.1.trans hms, hm.2.1.trans hgc⟩

theorem balanceGo_eq_iterate : ∀ (fuel : Nat) (ts : List Team),
    balanceGo fuel ts = balanceStep^[balanceIters fuel ts] ts := by
  intro fuel
  induction fuel with
  | zero => intro ts; rfl
  | succ n ih =>
    intro ts
    cases hr2 : (balanceIterFn ts).2 with
    | false =>
      simp only [balanceGo, balanceIters, hr2, Bool.false_eq_true, if_false]
      rfl
    | true =>
      simp only [balanceGo, balanceIters, hr2, if_true]
      rw [ih (balanceIterFn ts).1]
      rw [Function.iterate_succ_apply]
      rfl

theorem balanceIters_le : ∀ (fuel : Nat) (ts : List Team), balanceIters fuel ts ≤ fuel ∨ fuel = 0 := by
  intro fuel
  induction fuel with
  | zero => intro ts; right; rfl
  | succ n ih =>
    intro ts
    left
    cases hr2 : (balanceIterFn ts).2 with
    | false => simp only [balanceIters, hr2, Bool.false_eq_true, if_false]; omega
    | true =>
      simp only [balanceIters, hr2, if_true]
      rcases ih (balanceIterFn ts).1 with h | h
      · omega
      · subst h
        simp [balanceIters]

/-- C5: on every well-formed team set, the aggregate score is non-increasing
across the balance iterations; every applied swap strictly lowers it; no swap
is applied when no candidate swap lowers it; and the loop runs at most
`MAX_ITER = 100` iterations (with `balance` equal to that many applications
of the iteration step). -/
theorem claim_C5 (ts : List Team) (hwf : Wf ts) :
    (∀ n, calcScore (balanceStep^[n + 1] ts) ≤ calcScore (balanceStep^[n] ts)) ∧
    (∀ n, (balanceIterFn (balanceStep^[n] ts)).2 = true →
      calcScore (balanceStep^[n + 1] ts) < calcScore (balanceStep^[n] ts)) ∧
    (∀ n, (∀ i j p1 p2, i < j → j < (balanceStep^[n] ts).length →
        p1 ∈ (teamAt (balanceStep^[n] ts) i).players →
        p2 ∈ (teamAt (balanceStep^[n] ts) j).players →
        goalieMismatch p1 p2 = false →
        calcScore (balanceStep^[n] ts) ≤
          calcScore (applySwap (balanceStep^[n] ts) i j p1 p2)) →
      (balanceIterFn (balanceStep^[n] ts)).2 = false) ∧
    balanceIters MAX_ITER ts ≤ MAX_ITER ∧
    balance ts = balanceStep^[balanceIters MAX_ITER ts] ts := by
  have hiter := iterate_master ts hwf
  refine ⟨?_, ?_, ?_, ?_, ?_⟩
  · intro n
    have hm := balanceStep_master (balanceStep^[n] ts) (hiter n).1.2.2
    rw [Function.iterate_succ_apply']
    exact hm.2.2.2.1
  · intro n happ
    have hm := balanceStep_master (balanceStep^[n] ts) (hiter n).1.2.2
    rw [Function.iterate_succ_apply']
    exact hm.2.2.2.2.1 happ
  · intro n hall
    have hm := balanceStep_master (balanceStep^[n] ts) (hiter n).1.2.2
    cases happ : (balanceIterFn (balanceStep^[n] ts)).2 with
    | false => rfl
    | true =>
      obtain ⟨i, j, p1, p2, hij, hj, hpar, hp1, hp2, hlt⟩ := hm.2.2.2.2.2 happ
      exact absurd (hall i j p1 p2 hij hj hp1 hp2 hpar) (not_le.mpr hlt)
  · rcases balanceIters_le MAX_ITER ts with h | h
    · exact h
    · exact absurd h (by rw [MAX_ITER]; omega)
  · rw [balance]
    exact balanceGo_eq_iterate MAX_ITER ts

theorem claim_C5_witness :
    Wf tsW ∧ balanceIters MAX_ITER tsW ≤ MAX_ITER ∧
    balance tsW = balanceStep^[balanceIters MAX_ITER tsW] tsW :=
  ⟨by decide, (claim_C5 tsW (by decide)).2.2.2.1, (claim_C5 tsW (by decide)).2.2.2.2⟩

/-- C6: balancing never changes any team's goalie count — the per-team goalie
counts after `balance` equal those before. -/
theorem claim_C6 (ts : List Team) (hwf : Wf ts) :
    goalieCounts (balance ts) = goalieCounts ts := by
  rw [balance, balanceGo_eq_iterate]
  exact (iterate_master ts hwf (balanceIters MAX_ITER ts)).2.2

theorem claim_C6_witness : goalieCounts (balance tsW) = goalieCounts tsW :=
  claim_C6 tsW (by decide)

/-! ### Stable sort, assignment and distribution lemmas -/

theorem insStable_perm (le : α → α → Bool) (x : α) :
    ∀ l : List α, (insStable le x l).Perm (x :: l) := by
  intro l
  induction l with
  | nil => exact List.Perm.refl _
  | cons y ys ih =>
    rw [insStable]
    by_cases h : le x y = true
    · rw [if_pos h]
    · rw [if_neg h]
      exact (ih.cons y).trans (List.Perm.swap x y ys)

theorem stableSortBy_perm (le : α → α → Bool) :
    ∀ l : List α, (stableSortBy le l).Perm l := by
  intro l
  induction l with
  | nil => exact List.Perm.refl _
  | cons x xs ih =>
    show (insStable le x (stableSortBy le xs)).Perm (x :: xs)
    exact (insStable_perm le x _).trans (ih.cons x)

theorem insStable_pairwise {le : α → α → Bool}
    (htot : ∀ a b, le a b = true ∨ le b a = true)
    (htrans : ∀ a b c, le a b = true → le b c = true → le a c = true) (x : α) :
    ∀ l : List α, l.Pairwise (fun a b => le a b = true) →
      (insStable le x l).Pairwise (fun a b => le a b = true) := by
  intro l
  induction l with
  | nil => intro _; exact List.pairwise_singleton _ x
  | cons y ys ih =>
    intro hp
    have hy : ∀ b ∈ ys, le y b = true := fun b hb => List.rel_of_pairwise_cons hp hb
    have hys := hp.of_cons
    rw [insStable]
    by_cases h : le x y = true
    · rw [if_pos h]
      refine List.Pairwise.cons ?_ hp
      intro b hb
      rcases List.mem_cons.mp hb with rfl | hb
      · exact h
      · exact htrans x y b h (hy b hb)
    · rw [if_neg h]
      refine List.Pairwise.cons ?_ (ih hys)
      intro b hb
      have hb' := (insStable_perm le x ys).mem_iff.mp hb
      rcases List.mem_cons.mp hb' with rfl | hb'
      · rcases htot y b with hyb | hby
        · exact hyb
        · exact absurd hby h
      · exact hy b hb'

theorem stableSortBy_pairwise {le : α → α → Bool}
    (htot : ∀ a b, le a b = true ∨ le b a = true)
    (htrans : ∀ a b c, le a b = true → le b c = true → le a c = true) :
    ∀ l : List α, (stableSortBy le l).Pairwise (fun a b => le a b = true) := by
  intro l
  induction l with
  | nil => exact List.Pairwise.nil
  | cons x xs ih => exact insStable_pairwise htot htrans x _ ih

theorem lexLe_total (a b : Nat × Nat) : lexLe a b = true ∨ lexLe b a = true := by
  simp only [lexLe, Bool.or_eq_true, Bool.and_eq_true, decide_eq_true_eq]
  omega

theorem lexLe_trans (a b c : Nat × Nat) (h1 : lexLe a b = true) (h2 : lexLe b c = true) :
    lexLe a c = true := by
  simp only [lexLe, Bool.or_eq_true, Bool.and_eq_true, decide_eq_true_eq] at h1 h2 ⊢
  omega

theorem mem_enum_teamAt {ts : List Team} {a : Nat} {t : Team}
    (h : (a, t) ∈ ts.enum) : teamAt ts a = t := by
  rw [teamAt, List.mk_mem_enum_iff_get?.mp h]
  rfl

theorem goalieSortIdx_perm (ts : List Team) :
    (goalieSortIdx ts).Perm (List.range ts.length) := by
  rw [goalieSortIdx, ← List.enum_map_fst ts]
  exact (stableSortBy_perm _ ts.enum).map _

theorem skillSortIdx_perm (ts : List Team) :
    (skillSortIdx ts).Perm (List.range ts.length) := by
  rw [skillSortIdx, ← List.enum_map_fst ts]
  exact (stableSortBy_perm _ ts.enum).map _

theorem goalieSortIdx_lt (ts : List Team) :
    ∀ idx ∈ goalieSortIdx ts, idx < ts.length := fun idx h =>
  List.mem_range.mp ((goalieSortIdx_perm ts).mem_iff.mp h)

theorem skillSortIdx_lt (ts : List Team) :
    ∀ idx ∈ skillSortIdx ts, idx < ts.length := fun idx h =>
  List.mem_range.mp ((skillSortIdx_perm ts).mem_iff.mp h)

theorem goalieSortIdx_length (ts : List Team) :
    (goalieSortIdx ts).length = ts.length := (goalieSortIdx_perm ts).length_eq.trans
  (List.length_range ts.length)

theorem skillSortIdx_length (ts : List Team) :
    (skillSortIdx ts).length = ts.length := (skillSortIdx_perm ts).length_eq.trans
  (List.length_range ts.length)

theorem goalieSortIdx_sorted (ts : List Team) :
    (goalieSortIdx ts).Pairwise fun a b =>
      lexLe ((teamAt ts a).size, (teamAt ts a).total_skill)
        ((teamAt ts b).size, (teamAt ts b).total_skill) = true := by
  rw [goalieSortIdx]
  rw [List.pairwise_map]
  have hsorted := @stableSortBy_pairwise (Nat × Team)
    (fun a b => lexLe (a.2.size, a.2.total_skill) (b.2.size, b.2.total_skill))
    (fun a b => lexLe_total _ _) (fun a b c => lexLe_trans _ _ _) ts.enum
  refine hsorted.imp_of_mem ?_
  intro a b ha hb hr
  have hmema := (stableSortBy_perm _ ts.enum).mem_iff.mp ha
  have hmemb := (stableSortBy_perm _ ts.enum).mem_iff.mp hb
  have ha2 : teamAt ts a.1 = a.2 := mem_enum_teamAt (by
    have : ((a.1, a.2) : Nat × Team) = a := rfl
    rw [this]
    exact hmema)
  have hb2 : teamAt ts b.1 = b.2 := mem_enum_teamAt (by
    have : ((b.1, b.2) : Nat × Team) = b := rfl
    rw [this]
    exact hmemb)
  rw [ha2, hb2]
  exact hr

theorem skillSortIdx_sorted (ts : List Team) :
    (skillSortIdx ts).Pairwise fun a b =>
      (teamAt ts a).total_skill ≤ (teamAt ts b).total_skill := by
  rw [skillSortIdx]
  rw [List.pairwise_map]
  have hsorted := @stableSortBy_pairwise (Nat × Team)
    (fun a b => decide (a.2.total_skill ≤ b.2.total_skill))
    (fun a b => by
      simp only [decide_eq_true_eq]
      omega)
    (fun a b c h1 h2 => by
      simp only [decide_eq_true_eq] at h1 h2 ⊢
      omega) ts.enum
  refine hsorted.imp_of_mem ?_
  intro a b ha hb hr
  have hmema := (stableSortBy_perm _ ts.enum).mem_iff.mp ha
  have hmemb := (stableSortBy_perm _ ts.enum).mem_iff.mp hb
  have ha2 : teamAt ts a.1 = a.2 := mem_enum_teamAt (by
    have h1 : ((a.1, a.2) : Nat × Team) = a := rfl
    rw [h1]
    exact hmema)
  have hb2 : teamAt ts b.1 = b.2 := mem_enum_teamAt (by
    have h1 : ((b.1, b.2) : Nat × Team) = b := rfl
    rw [h1]
    exact hmemb)
  rw [decide_eq_true_eq] at hr
  rw [ha2, hb2]
  exact hr

theorem allP_updAt_add {ts : List Team} {i : Nat} (p : Player) (hi : i < ts.length) :
    ((allP (updAt ts i (fun l => addPlayer l p)) : List Player) : Multiset Player) =
      ((allP ts : List Player) : Multiset Player) + {p} := by
  have h := allP_updAt_ms ts i (fun l => addPlayer l p) hi
  dsimp only at h
  rw [coe_addPlayer] at h
  have h2 : (((allP ts : List Player) : Multiset Player) + {p})
        + ((teamAt ts i).players : Multiset Player) =
      ((allP ts : List Player) : Multiset Player)
        + (p ::ₘ ((teamAt ts i).players : Multiset Player)) := by
    rw [← Multiset.singleton_add]
    abel
  exact add_right_cancel (h.trans h2.symm)

theorem assignSeq_pool : ∀ (order : List Nat) (ts : List Team) (pool : List Player),
    (assignSeq order ts pool).2 = pool.drop order.length := by
  intro order
  induction order with
  | nil => intro ts pool; rfl
  | cons idx rest ih =>
    intro ts pool
    match pool with
    | [] => simp [assignSeq]
    | p :: ps =>
      show (assignSeq rest (updAt ts idx (fun l => addPlayer l p)) ps).2 = _
      rw [ih]
      rfl

theorem assignSeq_length : ∀ (order : List Nat) (ts : List Team) (pool : List Player),
    (assignSeq order ts pool).1.length = ts.length := by
  intro order
  induction order with
  | nil => intro ts pool; rfl
  | cons idx rest ih =>
    intro ts pool
    match pool with
    | [] => rfl
    | p :: ps =>
      show (assignSeq rest (updAt ts idx (fun l => addPlayer l p)) ps).1.length = _
      rw [ih, updAt_length]

theorem assignSeq_ms : ∀ (order : List Nat) (ts : List Team) (pool : List Player),
    (∀ idx ∈ order, idx < ts.length) →
    ((allP (assignSeq order ts pool).1 : List Player) : Multiset Player)
        + (((assignSeq order ts pool).2 : List Player) : Multiset Player) =
      ((allP ts : List Player) : Multiset Player) + (pool : Multiset Player) := by
  intro order
  induction order with
  | nil => intro ts pool _; rfl
  | cons idx rest ih =>
    intro ts pool hvalid
    match pool with
    | [] => rfl
    | p :: ps =>
      show ((allP (assignSeq rest (updAt ts idx (fun l => addPlayer l p)) ps).1 :
          List Player) : Multiset Player)
        + (((assignSeq rest (updAt ts idx (fun l => addPlayer l p)) ps).2 :
          List Player) : Multiset Player) =
        ((allP ts : List Player) : Multiset Player)
          + ((p :: ps : List Player) : Multiset Player)
      have hidx : idx < ts.length := hvalid idx (List.mem_cons_self idx rest)
      have hrec := ih (updAt ts idx (fun l => addPlayer l p)) ps
        (fun k hk => by rw [updAt_length]; exact hvalid k (List.mem_cons_of_mem idx hk))
      rw [hrec, allP_updAt_add p hidx]
      have hcons : ((p :: ps : List Player) : Multiset Player) =
          p ::ₘ (ps : Multiset Player) := (Multiset.cons_coe p ps).symm
      rw [hcons, ← Multiset.singleton_add]
      abel

theorem distributeGoalies_master : ∀ (fuel : Nat) (ts : List Team) (gs : List Player),
    gs.length ≤ fuel → 0 < ts.length →
    ((allP (distributeGoalies fuel ts gs) : List Player) : Multiset Player) =
      ((allP ts : List Player) : Multiset Player) + (gs : Multiset Player) ∧
    (distributeGoalies fuel ts gs).length = ts.length := by
  intro fuel
  induction fuel with
  | zero =>
    intro ts gs hle _
    have hnil : gs = [] := List.eq_nil_of_length_eq_zero (by omega)
    subst hnil
    constructor
    · show ((allP ts : List Player) : Multiset Player) =
        ((allP ts : List Player) : Multiset Player) + (([] : List Player) : Multiset Player)
      simp
    · rfl
  | succ n ih =>
    intro ts gs hle hpos
    match gs with
    | [] =>
      constructor
      · show ((allP ts : List Player) : Multiset Player) =
          ((allP ts : List Player) : Multiset Player) + (([] : List Player) : Multiset Player)
        simp
      · rfl
    | g :: gt =>
      have hstep : distributeGoalies (n + 1) ts (g :: gt) =
          distributeGoalies n (assignSeq (goalieSortIdx ts) ts (g :: gt)).1
            (assignSeq (goalieSortIdx ts) ts (g :: gt)).2 := rfl
      have hms := assignSeq_ms (goalieSortIdx ts) ts (g :: gt) (goalieSortIdx_lt ts)
      have hlen := assignSeq_length (goalieSortIdx ts) ts (g :: gt)
      have hpool := assignSeq_pool (goalieSortIdx ts) ts (g :: gt)
      have hplen : (assignSeq (goalieSortIdx ts) ts (g :: gt)).2.length ≤ n := by
        rw [hpool, List.length_drop, goalieSortIdx_length]
        have hl : (g :: gt).length = gt.length + 1 := rfl
        omega
      have hrec := ih (assignSeq (goalieSortIdx ts) ts (g :: gt)).1
        (assignSeq (goalieSortIdx ts) ts (g :: gt)).2 hplen (by rw [hlen]; exact hpos)
      rw [hstep]
      exact ⟨hrec.1.trans hms, hrec.2.trans hlen⟩

theorem genOrders_length (g : Rng) (T : Nat) :
    ∀ n cnt us last, (genOrders g T n cnt us last).length = n := by
  intro n
  induction n with
  | zero => intro cnt us last; cases us <;> rfl
  | succ m ih =>
    intro cnt us last
    cases us with
    | false =>
      show (genOrders g T m (cnt + 1) true (g cnt (List.range T))).length + 1 = m + 1
      rw [ih]
    | true =>
      show (genOrders g T m cnt false last.reverse).length + 1 = m + 1
      rw [ih]

theorem genOrders_orders_perm (g : Rng) (T : Nat) (hg : RngOk g) :
    ∀ n cnt us last, (us = true → last.Perm (List.range T)) →
      ∀ o ∈ genOrders g T n cnt us last, o.Perm (List.range T) := by
  intro n
  induction n with
  | zero => intro cnt us last _ o ho; cases us <;> cases ho
  | succ m ih =>
    intro cnt us last hlast o ho
    cases us with
    | false =>
      rcases List.mem_cons.mp ho with rfl | ho
      · exact hg cnt (List.range T)
      · exact ih (cnt + 1) true (g cnt (List.range T)) (fun _ => hg cnt _) o ho
    | true =>
      have hrev : last.reverse.Perm (List.range T) :=
        (List.reverse_perm last).trans (hlast rfl)
      rcases List.mem_cons.mp ho with rfl | ho
      · exact hrev
      · exact ih cnt false last.reverse (fun h => nomatch h) o ho

theorem generatePickOrder_perm (g : Rng) (hg : RngOk g) (T R : Nat) :
    ∀ o ∈ generatePickOrder g T R, o.Perm (List.range T) :=
  genOrders_orders_perm g T hg R 0 false [] (fun h => nomatch h)

theorem generatePickOrder_length (g : Rng) (T R : Nat) :
    (generatePickOrder g T R).length = R := genOrders_length g T R 0 false []

theorem ceil_mul_ge (c T : Nat) (hT : 0 < T) : c ≤ ((c + T - 1) / T) * T := by
  have hdm := Nat.div_add_mod (c + T - 1) T
  have hmod : (c + T - 1) % T < T := Nat.mod_lt _ hT
  rw [Nat.mul_comm]
  omega

theorem allP_initTeams : ∀ l : List Nat,
    allP (l.map fun k => (⟨(TEAM_COLORS.get? k).getD "", []⟩ : Team)) = [] := by
  intro l
  induction l with
  | nil => rfl
  | cons x xs ih =>
    show ([] : List Player) ++ allP (xs.map fun k => (⟨(TEAM_COLORS.get? k).getD "", []⟩ : Team)) = []
    rw [List.nil_append, ih]

theorem snakeRounds_master (T R : Nat) : ∀ (orders : List (List Nat)) (ridx : Nat)
    (ts : List Team) (pool : List Player),
    ts.length = T →
    (∀ o ∈ orders, ∀ idx ∈ o, idx < T) →
    (∀ o ∈ orders, o.length = T) →
    ((allP (snakeRounds T R orders ridx ts pool) : List Player) : Multiset Player)
        + ((pool.drop (orders.length * T) : List Player) : Multiset Player) =
      ((allP ts : List Player) : Multiset Player) + (pool : Multiset Player) ∧
    (snakeRounds T R orders ridx ts pool).length = T := by
  intro orders
  induction orders with
  | nil =>
    intro ridx ts pool hlen _ _
    constructor
    · rw [show ([] : List (List Nat)).length * T = 0 from by simp, List.drop_zero]
      rfl
    · exact hlen
  | cons o os ih =>
    intro ridx ts pool hlen hvalid holen
    have hstep : snakeRounds T R (o :: os) ridx ts pool =
        snakeRounds T R os (ridx + 1)
          (assignSeq (if ridx = R - 1 ∧ pool.length < T then skillSortIdx ts else o)
            ts pool).1
          (assignSeq (if ridx = R - 1 ∧ pool.length < T then skillSortIdx ts else o)
            ts pool).2 := rfl
    set order : List Nat := if ridx = R - 1 ∧ pool.length < T then skillSortIdx ts else o
      with horder
    have hordvalid : ∀ idx ∈ order, idx < ts.length := by
      rw [horder]
      split
      · exact skillSortIdx_lt ts
      · intro idx hidx
        rw [hlen]
        exact hvalid o (List.mem_cons_self o os) idx hidx
    have hordlen : order.length = T := by
      rw [horder]
      split
      · rw [skillSortIdx_length, hlen]
      · exact holen o (List.mem_cons_self o os)
    have hms := assignSeq_ms order ts pool hordvalid
    have hplen := assignSeq_length order ts pool
    have hppool := assignSeq_pool order ts pool
    have hrec := ih (ridx + 1) (assignSeq order ts pool).1 (assignSeq order ts pool).2
      (hplen.trans hlen)
      (fun o' ho' => hvalid o' (List.mem_cons_of_mem o ho'))
      (fun o' ho' => holen o' (List.mem_cons_of_mem o ho'))
    rw [hstep]
    refine ⟨?_, hrec.2⟩
    have hdrop : (assignSeq order ts pool).2.drop (os.length * T) =
        pool.drop ((o :: os).length * T) := by
      rw [hppool, List.drop_drop, hordlen]
      congr 1
      have hc : (o :: os).length = os.length + 1 := rfl
      rw [hc]
      ring
    calc ((allP (snakeRounds T R os (ridx + 1) (assignSeq order ts pool).1
            (assignSeq order ts pool).2) : List Player) : Multiset Player)
          + ((pool.drop ((o :: os).length * T) : List Player) : Multiset Player)
        = ((allP (snakeRounds T R os (ridx + 1) (assignSeq order ts pool).1
            (assignSeq order ts pool).2) : List Player) : Multiset Player)
          + (((assignSeq order ts pool).2.drop (os.length * T) : List Player) :
            Multiset Player) := by rw [hdrop]
      _ = ((allP (assignSeq order ts pool).1 : List Player) : Multiset Player)
          + (((assignSeq order ts pool).2 : List Player) : Multiset Player) := hrec.1
      _ = ((allP ts : List Player) : Multiset Player) + (pool : Multiset Player) := hms

theorem filter_partition_ms (players : List Player) :
    ((players.filter fun p => p.role ≠ Role.goalie : List Player) : Multiset Player)
      + ((players.filter fun p => p.role = Role.goalie : List Player) : Multiset Player) =
      (players : Multiset Player) := by
  have hperm := List.filter_append_perm (fun p => decide (p.role = Role.goalie)) players
  have hco := Multiset.coe_eq_coe.mpr hperm
  rw [← Multiset.coe_add] at hco
  have hneg : (players.filter fun p => p.role ≠ Role.goalie) =
      players.filter fun x => !decide (x.role = Role.goalie) := by
    simp only [ne_eq, decide_not]
  rw [hneg]
  rw [← hco]
  abel

theorem splitIntoTeams_master (g : Rng) (hg : RngOk g) (players : List Player)
    (T : Nat) (hT : 0 < T) :
    ((allP (splitIntoTeams g players T) : List Player) : Multiset Player) =
      (players : Multiset Player) ∧
    (splitIntoTeams g players T).length = T := by
  rw [splitIntoTeams]
  set teams0 : List Team :=
    (List.range T).map fun k => ⟨(TEAM_COLORS.get? k).getD "", []⟩ with hteams0
  set nonG := players.filter (fun p => p.role ≠ Role.goalie) with hnonG
  set R := (nonG.length + T - 1) / T with hR
  set orders := generatePickOrder g T R with horders
  have hlen0 : teams0.length = T := by
    rw [hteams0, List.length_map, List.length_range]
  have hallP0 : allP teams0 = [] := allP_initTeams (List.range T)
  have hovalid : ∀ o ∈ orders, ∀ idx ∈ o, idx < T := fun o ho idx hidx =>
    List.mem_range.mp (((generatePickOrder_perm g hg T R) o ho).mem_iff.mp hidx)
  have holen : ∀ o ∈ orders, o.length = T := fun o ho =>
    ((generatePickOrder_perm g hg T R) o ho).length_eq.trans (List.length_range T)
  have hsnake := snakeRounds_master T R orders 0 teams0 nonG hlen0 hovalid holen
  have hcap : nonG.length ≤ orders.length * T := by
    rw [horders, generatePickOrder_length]
    exact ceil_mul_ge nonG.length T hT
  have hdropnil : nonG.drop (orders.length * T) = [] :=
    List.drop_eq_nil_of_le hcap
  have hms1 : ((allP (snakeRounds T R orders 0 teams0 nonG) : List Player) :
      Multiset Player) = (nonG : Multiset Player) := by
    have h := hsnake.1
    rw [hdropnil, hallP0] at h
    simpa using h
  have hgoalies := distributeGoalies_master (players.filter fun p => p.role = Role.goalie).length
    (snakeRounds T R orders 0 teams0 nonG)
    (players.filter fun p => p.role = Role.goalie)
    (le_refl _) (by rw [hsnake.2]; exact hT)
  refine ⟨?_, hgoalies.2.trans hsnake.2⟩
  rw [hgoalies.1, hms1]
  exact filter_partition_ms players

theorem lookupNames_map_name (roster : List Player) :
    ∀ (names : List String) (l : List Player),
      lookupNames roster names = .ok l → l.map Player.name = names := by
  intro names
  induction names with
  | nil =>
    intro l h
    cases h
    rfl
  | cons nm rest ih =>
    intro l h
    rw [lookupNames] at h
    cases hfind : roster.find? (fun p => p.name = nm) with
    | none => rw [hfind] at h; cases h
    | some p =>
      rw [hfind] at h
      cases hrec : lookupNames roster rest with
      | error e => rw [hrec] at h; cases h
      | ok ps =>
        rw [hrec] at h
        cases h
        have hname : p.name = nm := by
          have := List.find?_some hfind
          simpa using this
        show p.name :: ps.map Player.name = nm :: rest
        rw [hname, ih ps hrec]

theorem validatePlayers_master {roster : List Player} {names : List String}
    {players : List Player} (hn : names.Nodup)
    (h : validatePlayers roster names = .ok players) :
    players.Nodup := by
  rw [validatePlayers] at h
  cases hl : lookupNames roster names with
  | error e => rw [hl] at h; cases h
  | ok l =>
    rw [hl] at h
    cases h
    have hmap : l.map Player.name = names := lookupNames_map_name roster names l hl
    have hlnd : l.Nodup := List.Nodup.of_map Player.name (hmap ▸ hn)
    exact (stableSortBy_perm _ l).nodup_iff.mpr hlnd

/-- C2: for any valid selection (every name resolves; names duplicate-free;
at least one player so the balancer's `Metrics` construction does not raise),
the multiset of players over all teams equals the validated selection — no
omission, no duplicate, no extra player — after the initial distribution and
after every balancing iteration. -/
theorem claim_C2 (g : Rng) (roster : List Player) (names : List String)
    (players : List Player) (numTeams : Nat) (hg : RngOk g) (hn : names.Nodup)
    (hval : validatePlayers roster names = .ok players) (hne : players ≠ [])
    (hT : 0 < numTeams) :
    players.Nodup ∧
    ((allP (splitIntoTeams g players numTeams) : List Player) : Multiset Player) =
      (players : Multiset Player) ∧
    ∀ n, ((allP (balanceStep^[n] (splitIntoTeams g players numTeams)) : List Player) :
      Multiset Player) = (players : Multiset Player) := by
  have hnd := validatePlayers_master hn hval
  have hsplit := splitIntoTeams_master g hg players numTeams hT
  have hperm : (allP (splitIntoTeams g players numTeams)).Perm players :=
    Multiset.coe_eq_coe.mp hsplit.1
  have hwf : Wf (splitIntoTeams g players numTeams) := by
    refine ⟨?_, ?_, hperm.nodup_iff.mpr hnd⟩
    · intro hnil
      rw [hnil] at hsplit
      have := hsplit.2
      simp at this
      omega
    · intro hnil
      apply hne
      have := hperm.length_eq
      rw [hnil] at this
      exact List.eq_nil_of_length_eq_zero this.symm
  refine ⟨hnd, hsplit.1, fun n => ?_⟩
  exact (iterate_master _ hwf n).2.1.trans hsplit.1

theorem claim_C2_witness :
    playersW.Nodup ∧
    ((allP (splitIntoTeams idg playersW 2) : List Player) : Multiset Player) =
      (playersW : Multiset Player) ∧
    ∀ n, ((allP (balanceStep^[n] (splitIntoTeams idg playersW 2)) : List Player) :
      Multiset Player) = (playersW : Multiset Player) :=
  claim_C2 idg rosterW namesW playersW 2 idg_ok (by decide) rfl (by decide) (by decide)

theorem foldl_max_ge : ∀ (l : List Nat) (init x : Nat), x = init ∨ x ∈ l →
    x ≤ l.foldl Nat.max init := by
  intro l
  induction l with
  | nil =>
    intro init x h
    rcases h with rfl | h
    · exact le_refl x
    · cases h
  | cons a as ih =>
    intro init x h
    show x ≤ as.foldl Nat.max (Nat.max init a)
    rcases h with rfl | h
    · exact le_trans (Nat.le_max_left x a) (ih _ _ (Or.inl rfl))
    · rcases List.mem_cons.mp h with rfl | h
      · exact le_trans (Nat.le_max_right init x) (ih _ _ (Or.inl rfl))
      · exact ih _ _ (Or.inr h)

theorem foldl_min_le : ∀ (l : List Nat) (init x : Nat), x = init ∨ x ∈ l →
    l.foldl Nat.min init ≤ x := by
  intro l
  induction l with
  | nil =>
    intro init x h
    rcases h with rfl | h
    · exact le_refl x
    · cases h
  | cons a as ih =>
    intro init x h
    show as.foldl Nat.min (Nat.min init a) ≤ x
    rcases h with rfl | h
    · exact le_trans (ih _ _ (Or.inl rfl)) (Nat.min_le_left x a)
    · rcases List.mem_cons.mp h with rfl | h
      · exact le_trans (ih _ _ (Or.inl rfl)) (Nat.min_le_right init x)
      · exact ih _ _ (Or.inr h)

theorem natListMax_ge {l : List Nat} {x : Nat} (h : x ∈ l) : x ≤ natListMax l := by
  match l with
  | a :: as =>
    rcases List.mem_cons.mp h with rfl | h
    · exact foldl_max_ge as x x (Or.inl rfl)
    · exact foldl_max_ge as a x (Or.inr h)

theorem natListMin_le {l : List Nat} {x : Nat} (h : x ∈ l) : natListMin l ≤ x := by
  match l with
  | a :: as =>
    rcases List.mem_cons.mp h with rfl | h
    · exact foldl_min_le as x x (Or.inl rfl)
    · exact foldl_min_le as a x (Or.inr h)

/-- C3: whenever `split_teams` returns a team set (rather than raising), every
two team sizes differ by at most one — the post-balancing size check never
lets an imbalanced set through. -/
theorem claim_C3 (g : Rng) (roster : List Player) (names : List String)
    (ts : List Team) (hg : RngOk g)
    (hok : splitTeams g roster names = .ok ts) :
    ∀ a ∈ ts, ∀ b ∈ ts, a.size ≤ b.size + 1 := by
  rw [splitTeams] at hok
  cases hv : validatePlayers roster names with
  | error e => rw [hv] at hok; cases hok
  | ok players =>
    rw [hv] at hok
    dsimp only at hok
    cases hval2 : validateTeamSizeBalance (balance (splitIntoTeams g players
        (if MIN_PLAYER_NUMBER_FOR_4_TEAMS ≤ players.length then 4 else 2))) with
    | error e => rw [hval2] at hok; cases hok
    | ok u =>
      rw [hval2] at hok
      cases hok
      rw [validateTeamSizeBalance] at hval2
      by_cases hnil : balance (splitIntoTeams g players
          (if MIN_PLAYER_NUMBER_FOR_4_TEAMS ≤ players.length then 4 else 2)) = []
      · intro a ha
        rw [hnil] at ha
        cases ha
      · rw [if_neg hnil] at hval2
        set tb := balance (splitIntoTeams g players
          (if MIN_PLAYER_NUMBER_FOR_4_TEAMS ≤ players.length then 4 else 2)) with htb
        by_cases hgt : natListMax (tb.map Team.size) - natListMin (tb.map Team.size) > 1
        · rw [if_pos hgt] at hval2
          cases hval2
        · intro a ha b hb
          have hmax : a.size ≤ natListMax (tb.map Team.size) :=
            natListMax_ge (List.mem_map_of_mem Team.size ha)
          have hmin : natListMin (tb.map Team.size) ≤ b.size :=
            natListMin_le (List.mem_map_of_mem Team.size hb)
          omega

theorem claim_C3_witness :
    (teamAt tsResW 0).size ≤ (teamAt tsResW 1).size + 1 ∧
    (teamAt tsResW 1).size ≤ (teamAt tsResW 0).size + 1 :=
  ⟨claim_C3 idg rosterW namesW tsResW idg_ok rfl (teamAt tsResW 0) (by decide)
      (teamAt tsResW 1) (by decide),
   claim_C3 idg rosterW namesW tsResW idg_ok rfl (teamAt tsResW 1) (by decide)
      (teamAt tsResW 0) (by decide)⟩

theorem assignSeq_teamAt : ∀ (order : List Nat) (ts : List Team) (pool : List Player),
    (∀ idx ∈ order, idx < ts.length) → ∀ m, m < ts.length →
    (teamAt (assignSeq order ts pool).1 m).players =
      (teamAt ts m).players ++ ((order.zip pool).filter fun e => e.1 = m).map (·.2) := by
  intro order
  induction order with
  | nil =>
    intro ts pool _ m _
    simp [assignSeq]
  | cons idx rest ih =>
    intro ts pool hvalid m hm
    match pool with
    | [] =>
      show (teamAt ts m).players = (teamAt ts m).players ++
        (((idx :: rest).zip ([] : List Player)).filter fun e => e.1 = m).map (·.2)
      simp
    | p :: ps =>
      have hidx : idx < ts.length := hvalid idx (List.mem_cons_self idx rest)
      have hrec := ih (updAt ts idx (fun l => addPlayer l p)) ps
        (fun k hk => by rw [updAt_length]; exact hvalid k (List.mem_cons_of_mem idx hk))
        m (by rw [updAt_length]; exact hm)
      show (teamAt (assignSeq rest (updAt ts idx (fun l => addPlayer l p)) ps).1 m).players = _
      rw [hrec]
      have hzip : ((idx :: rest).zip (p :: ps)) = (idx, p) :: rest.zip ps := rfl
      rw [hzip, List.filter_cons]
      by_cases hm2 : idx = m
      · subst hm2
        rw [teamAt_updAt_self _ hidx]
        simp [addPlayer, List.append_assoc]
      · rw [teamAt_updAt_ne _ (fun h => hm2 h.symm)]
        have hcond : (decide ((idx, p).1 = m)) = false := by
          simp only [decide_eq_false_iff_not]
          exact hm2
        rw [hcond]
        simp

/-- C7 as stated is false on the code: with team A empty, team B holding two
field players, and two goalies to place, the code sorts once and hands the
second goalie to B in the same pass, while re-sorting after every single
assignment (the claimed behaviour) would hand both goalies to A. -/
theorem claim_C7_counterexample :
    distributeGoalies 2 [⟨"A", []⟩, ⟨"B", [pD "x" 50, pD "y" 50]⟩]
        [pG "g1" 5, pG "g2" 6] ≠
      distributeGoaliesClaimed 2 [⟨"A", []⟩, ⟨"B", [pD "x" 50, pD "y" 50]⟩]
        [pG "g1" 5, pG "g2" 6] := by
  decide

/-- C7, corrected.  Each pass of the goalie loop sorts the teams ascending by
`(size, total skill)` ONCE, then hands one goalie to each team of that order
until the pool empties (so a pass places up to `len(teams)` goalies, not one);
passes repeat while goalies remain. -/
theorem claim_C7 (ts : List Team) (gs : List Player) (fuel : Nat) (hne : gs ≠ []) :
    distributeGoalies (fuel + 1) ts gs =
      distributeGoalies fuel (assignSeq (goalieSortIdx ts) ts gs).1
        (assignSeq (goalieSortIdx ts) ts gs).2 ∧
    (assignSeq (goalieSortIdx ts) ts gs).2 = gs.drop (goalieSortIdx ts).length ∧
    (goalieSortIdx ts).Perm (List.range ts.length) ∧
    (goalieSortIdx ts).Pairwise (fun a b =>
      lexLe ((teamAt ts a).size, (teamAt ts a).total_skill)
        ((teamAt ts b).size, (teamAt ts b).total_skill) = true) ∧
    ∀ m, m < ts.length →
      (teamAt (assignSeq (goalieSortIdx ts) ts gs).1 m).players =
        (teamAt ts m).players ++
          (((goalieSortIdx ts).zip gs).filter fun e => e.1 = m).map (·.2) := by
  refine ⟨?_, assignSeq_pool _ ts gs, goalieSortIdx_perm ts, goalieSortIdx_sorted ts,
    assignSeq_teamAt _ ts gs (goalieSortIdx_lt ts)⟩
  match gs with
  | g :: gt => rfl

theorem claim_C7_witness :
    ([pG "g1" 5, pG "g2" 6] : List Player) ≠ [] ∧
    distributeGoalies 2 [⟨"A", []⟩, ⟨"B", [pD "x" 50, pD "y" 50]⟩] [pG "g1" 5, pG "g2" 6] =
      distributeGoalies 1
        (assignSeq (goalieSortIdx [⟨"A", []⟩, ⟨"B", [pD "x" 50, pD "y" 50]⟩])
          [⟨"A", []⟩, ⟨"B", [pD "x" 50, pD "y" 50]⟩] [pG "g1" 5, pG "g2" 6]).1
        (assignSeq (goalieSortIdx [⟨"A", []⟩, ⟨"B", [pD "x" 50, pD "y" 50]⟩])
          [⟨"A", []⟩, ⟨"B", [pD "x" 50, pD "y" 50]⟩] [pG "g1" 5, pG "g2" 6]).2 :=
  ⟨by decide,
    (claim_C7 [⟨"A", []⟩, ⟨"B", [pD "x" 50, pD "y" 50]⟩] [pG "g1" 5, pG "g2" 6] 1
      (by decide)).1⟩

/-- C10: in the final snake round, when fewer field players remain than there
are teams, the generated order is discarded for the ascending-by-total-skill
stable order, under which the `k`-th remaining player goes to the `k`-th
lowest-skill team; in every other round the generated pick order is used
unchanged. -/
theorem claim_C10 (T R : Nat) (o : List Nat) (os : List (List Nat)) (ridx : Nat)
    (ts : List Team) (pool : List Player) :
    (ridx = R - 1 ∧ pool.length < T →
      snakeRounds T R (o :: os) ridx ts pool =
        snakeRounds T R os (ridx + 1) (assignSeq (skillSortIdx ts) ts pool).1
          (assignSeq (skillSortIdx ts) ts pool).2 ∧
      (skillSortIdx ts).Perm (List.range ts.length) ∧
      (skillSortIdx ts).Pairwise
        (fun a b => (teamAt ts a).total_skill ≤ (teamAt ts b).total_skill) ∧
      ∀ m, m < ts.length →
        (teamAt (assignSeq (skillSortIdx ts) ts pool).1 m).players =
          (teamAt ts m).players ++
            (((skillSortIdx ts).zip pool).filter fun e => e.1 = m).map (·.2)) ∧
    (¬(ridx = R - 1 ∧ pool.length < T) →
      snakeRounds T R (o :: os) ridx ts pool =
        snakeRounds T R os (ridx + 1) (assignSeq o ts pool).1 (assignSeq o ts pool).2) := by
  have hstep : snakeRounds T R (o :: os) ridx ts pool =
      snakeRounds T R os (ridx + 1)
        (assignSeq (if ridx = R - 1 ∧ pool.length < T then skillSortIdx ts else o)
          ts pool).1
        (assignSeq (if ridx = R - 1 ∧ pool.length < T then skillSortIdx ts else o)
          ts pool).2 := rfl
  constructor
  · intro hcond
    rw [hstep, if_pos hcond]
    exact ⟨rfl, skillSortIdx_perm ts, skillSortIdx_sorted ts,
      assignSeq_teamAt _ ts pool (skillSortIdx_lt ts)⟩
  · intro hcond
    rw [hstep, if_neg hcond]

theorem claim_C10_witness :
    (snakeRounds 2 2 [[0, 1]] 0 tsW [] =
      snakeRounds 2 2 [] 1 (assignSeq [0, 1] tsW []).1 (assignSeq [0, 1] tsW []).2) ∧
    (snakeRounds 2 1 [[0, 1]] 0 tsW [pM "m9" 1] =
      snakeRounds 2 1 [] 1 (assignSeq (skillSortIdx tsW) tsW [pM "m9" 1]).1
        (assignSeq (skillSortIdx tsW) tsW [pM "m9" 1]).2) :=
  ⟨(claim_C10 2 2 [0, 1] [] 0 tsW []).2 (by decide),
   ((claim_C10 2 1 [0, 1] [] 0 tsW [pM "m9" 1]).1 (by decide)).1⟩

end TeamSplitter
